import Mathlib

/-! Runfiles lookup (`tools/cpp/runfiles/runfiles.cc`).

A shallow embedding of the runfiles library: the string predicates
`starts_with`, `contains`, `ends_with`, the path test `IsAbsolute`, the
resolver `RunfilesImpl::Rlocation`, the manifest parser
`RunfilesImpl::ParseManifest`, the constructor `RunfilesImpl::Create` and the
locator `Runfiles::PathsFrom`.

A `std::string` is the list of its `char` elements.  Positions and sizes are
`size_t` values: natural numbers below `2 ^ 64`, with `npos = 2 ^ 64 - 1` and
subtraction wrapping modulo `2 ^ 64`.
-/

namespace Runfiles

/-! ## Strings and `size_t` -/

/-- A `std::string`, one `Char` per `char` element. -/
abbrev Str := List Char

/-- The number of `size_t` values, `2 ^ 64`. -/
def sizeMod : Nat := 2 ^ 64

/-- The constant `std::string::npos`, the largest `size_t`. -/
def npos : Nat := sizeMod - 1

/-- Subtraction of two `size_t` values, wrapping modulo `2 ^ 64`. -/
def sizeSub (a b : Nat) : Nat := (a + sizeMod - b % sizeMod) % sizeMod

/-- Increment of a `size_t` value, wrapping modulo `2 ^ 64`. -/
def sizeSucc (a : Nat) : Nat := (a + 1) % sizeMod

/-- The least position at which `sub` occurs in the given string, if any. -/
def findPos? (sub : Str) : Str → Option Nat
  | [] => if sub.isPrefixOf [] then some 0 else none
  | c :: t => if sub.isPrefixOf (c :: t) then some 0 else (findPos? sub t).map (· + 1)

/-- The greatest position at which `sub` occurs in the given string, if any. -/
def rfindPos? (sub : Str) : Str → Option Nat
  | [] => if sub.isPrefixOf [] then some 0 else none
  | c :: t =>
    match rfindPos? sub t with
    | some i => some (i + 1)
    | none => if sub.isPrefixOf (c :: t) then some 0 else none

/-- The library call `s.find(sub)`: the first position of `sub` in `s`, or `npos`. -/
def find (s sub : Str) : Nat := (findPos? sub s).getD npos

/-- The library call `s.rfind(sub)`: the last position of `sub` in `s`, or `npos`. -/
def rfind (s sub : Str) : Nat := (rfindPos? sub s).getD npos

/-- The least position of the character `c` in the given string, if any. -/
def charPos? (c : Char) : Str → Option Nat
  | [] => none
  | d :: t => if d = c then some 0 else (charPos? c t).map (· + 1)

/-- The library call `s.find_first_of(c)`: the first position of `c`, or `npos`. -/
def find_first_of (s : Str) (c : Char) : Nat := (charPos? c s).getD npos

/-- The library call `s.substr(pos, count)` for `pos ≤ s.size()`: at most `count`
characters starting at `pos`.  The one-argument form passes `count = npos`. -/
def substr (s : Str) (pos count : Nat) : Str := (s.drop pos).take count

/-- The element `s[i]`; reading at `s.size()` yields the terminating NUL. -/
def charAt (s : Str) (i : Nat) : Char := s.getD i (Char.ofNat 0)

/-! ## The helpers of the anonymous namespace -/

/-- Source `starts_with`. -/
def starts_with (s pre : Str) : Bool :=
  if pre.isEmpty then true
  else if s.isEmpty then false
  else find s pre == 0

/-- Source `contains`. -/
def contains (s substr : Str) : Bool :=
  if substr.isEmpty then true
  else if s.isEmpty then false
  else find s substr != npos

/-- Source `ends_with`; the right-hand side `s.size() - suffix.size()` is a
`size_t` subtraction. -/
def ends_with (s suffix : Str) : Bool :=
  if suffix.isEmpty then true
  else if s.isEmpty then false
  else rfind s suffix == sizeSub s.length suffix.length

/-- Source `IsAbsolute`. -/
def IsAbsolute (path : Str) : Bool :=
  if path.isEmpty then false
  else
    let c := charAt path 0
    (c == '/' && (decide (path.length < 2) || charAt path 1 != '/')) ||
      (decide (path.length ≥ 3) &&
        ((decide (c ≥ 'a') && decide (c ≤ 'z')) || (decide (c ≥ 'A') && decide (c ≤ 'Z'))) &&
        charAt path 1 == ':' && (charAt path 2 == '\\' || charAt path 2 == '/'))

/-! ## The runfiles map -/

/-- A `std::map<string, string>`: a list of entries with pairwise distinct keys. -/
abbrev StrMap := List (Str × Str)

/-- The lookup `m.find(key)`: the mapped value, or `none` for `m.end()`. -/
def StrMap.find : StrMap → Str → Option Str
  | [], _ => none
  | (k, v) :: t, key => if k = key then some v else StrMap.find t key

/-- The assignment `m[key] = value`: overwrite the entry of `key`, or add one. -/
def StrMap.assign : StrMap → Str → Str → StrMap
  | [], key, value => [(key, value)]
  | (k, v) :: t, key, value =>
    if k = key then (k, value) :: t else (k, v) :: StrMap.assign t key value

/-! ## The resolver -/

/-- The object `RunfilesImpl`: its three constant fields. -/
structure RunfilesImpl where
  runfiles_map_ : StrMap
  directory_ : Str
  envvars_ : List (Str × Str)
  deriving DecidableEq

/-- The condition of the first `if` of `RunfilesImpl::Rlocation`. -/
def RlocationRejects (path : Str) : Bool :=
  path.isEmpty || starts_with path "../".toList || contains path "/..".toList ||
    starts_with path "./".toList || contains path "/./".toList ||
    ends_with path "/.".toList || contains path "//".toList

/-- Source `RunfilesImpl::Rlocation`. -/
def RunfilesImpl.Rlocation (self : RunfilesImpl) (path : Str) : Str :=
  if RlocationRejects path then []
  else if IsAbsolute path then path
  else
    match self.runfiles_map_.find path with
    | some value => value
    | none =>
      if !self.directory_.isEmpty then self.directory_ ++ "/".toList ++ path
      else "".toList

/-! ## Path vocabulary of the specification -/

/-- The "/"-separated segments of a path, in order; a path without "/" is
its own single segment. -/
def segments : Str → List Str
  | [] => [[]]
  | c :: t =>
    if c = '/' then [] :: segments t
    else
      match segments t with
      | [] => [[c]]
      | s :: r => (c :: s) :: r

/-- An ASCII letter, `a` to `z` or `A` to `Z`. -/
def IsAsciiLetter (c : Char) : Prop := ('a' ≤ c ∧ c ≤ 'z') ∨ ('A' ≤ c ∧ c ≤ 'Z')

/-- Absolute in form, in the words of the specification: a first character "/"
that is not followed by a second "/", or an ASCII letter followed by ":" and
then a backslash or "/". -/
def AbsoluteForm (p : Str) : Prop :=
  (∃ t, p = '/' :: t ∧ ¬ ['/'] <+: t) ∨
    (∃ c s t, p = c :: ':' :: s :: t ∧ IsAsciiLetter c ∧ (s = '\\' ∨ s = '/'))

/-! ## Manifest vocabulary of the specification -/

/-- The logical path of a manifest line: the text before its first space. -/
def keyOf (line : Str) : Str := line.takeWhile (· != ' ')

/-- The mapped path of a manifest line: the text after its first space. -/
def valueOf (line : Str) : Str := (line.dropWhile (· != ' ')).drop 1

/-- The text of a manifest file made of the given lines, each one terminated
by a newline. -/
def manifestText : List Str → Str
  | [] => []
  | line :: rest => line ++ '\n' :: manifestText rest

/-- A well-formed manifest line: not empty, with at least one space, without a
newline, and of a size that a `size_t` holds. -/
def WellFormedLine (line : Str) : Prop :=
  line ≠ [] ∧ ' ' ∈ line ∧ '\n' ∉ line ∧ line.length < sizeMod

/-- The index that the given lines describe: each line, in order, assigns its
mapped path to its logical path. -/
def manifestIndex (lines : List Str) (m : StrMap) : StrMap :=
  lines.foldl (fun acc line => acc.assign (keyOf line) (valueOf line)) m

/-! ## The locator -/

/-- The outcome of `Runfiles::PathsFrom`: the returned flag and the two
output strings. -/
structure PathsResult where
  ret : Bool
  out_manifest : Str
  out_directory : Str
  deriving DecidableEq

/-- The local variables of `Runfiles::PathsFrom`. -/
structure PathsState where
  mf : Str
  dir : Str
  mfValid : Bool
  dirValid : Bool

/-- The length `kSubstrLen` of `"_manifest"` and of `"/MANIFEST"`. -/
def kSubstrLen : Nat := 9

/-- First block of `PathsFrom`: with no valid hint, the candidates derived from `argv0`. -/
def PathsFrom.fromArgv0 (argv0 : Str) (is_runfiles_manifest is_runfiles_directory : Str → Bool)
    (st : PathsState) : PathsState :=
  if !st.mfValid && !st.dirValid then
    let mf := argv0 ++ ".runfiles/MANIFEST".toList
    let dir := argv0 ++ ".runfiles".toList
    let mfValid := is_runfiles_manifest mf
    let dirValid := is_runfiles_directory dir
    if !mfValid then
      let mf := argv0 ++ ".runfiles_manifest".toList
      { mf := mf, dir := dir, mfValid := is_runfiles_manifest mf, dirValid := dirValid }
    else
      { mf := mf, dir := dir, mfValid := mfValid, dirValid := dirValid }
  else st

/-- Block `if (!mfValid)` of `PathsFrom`: the manifest derived from the directory. -/
def PathsFrom.manifestFromDir (is_runfiles_manifest : Str → Bool) (st : PathsState) :
    PathsState :=
  if !st.mfValid then
    let mf := st.dir ++ "/MANIFEST".toList
    let mfValid := is_runfiles_manifest mf
    if !mfValid then
      let mf := st.dir ++ "_manifest".toList
      { st with mf := mf, mfValid := is_runfiles_manifest mf }
    else
      { st with mf := mf, mfValid := mfValid }
  else st

/-- Block `if (!dirValid)` of `PathsFrom`: the directory derived from the manifest;
the count `mf.size() - kSubstrLen` is a `size_t` subtraction. -/
def PathsFrom.dirFromManifest (is_runfiles_directory : Str → Bool) (st : PathsState) :
    PathsState :=
  if !st.dirValid then
    let dir := substr st.mf 0 (sizeSub st.mf.length kSubstrLen)
    { st with dir := dir, dirValid := is_runfiles_directory dir }
  else st

/-- Source `Runfiles::PathsFrom`; both outputs are cleared on entry. -/
def PathsFrom (argv0 mf dir : Str) (is_runfiles_manifest is_runfiles_directory : Str → Bool) :
    PathsResult :=
  let st : PathsState :=
    { mf := mf, dir := dir,
      mfValid := is_runfiles_manifest mf, dirValid := is_runfiles_directory dir }
  let st := PathsFrom.fromArgv0 argv0 is_runfiles_manifest is_runfiles_directory st
  if !st.mfValid && !st.dirValid then
    { ret := false, out_manifest := [], out_directory := [] }
  else
    let st := PathsFrom.manifestFromDir is_runfiles_manifest st
    let st := PathsFrom.dirFromManifest is_runfiles_directory st
    { ret := true,
      out_manifest := if st.mfValid then st.mf else [],
      out_directory := if st.dirValid then st.dir else [] }

/-! ## Files and input streams -/

/-- The file system as the library observes it: the text of each file that
`std::ifstream` can open, and which paths are directories. -/
structure FileSystem where
  file : Str → Option Str
  directory : Str → Bool

/-- Source `IsReadableFile`. -/
def IsReadableFile (fs : FileSystem) (path : Str) : Bool := (fs.file path).isSome

/-- Source `IsDirectory`. -/
def IsDirectory (fs : FileSystem) (path : Str) : Bool := fs.directory path

/-- An open `std::ifstream`: the unread text and the two state bits. -/
structure IfStream where
  buf : Str
  eofbit : Bool
  failbit : Bool
  deriving DecidableEq

/-- The stream test `good()`. -/
def IfStream.good (stm : IfStream) : Bool := !stm.eofbit && !stm.failbit

/-- The characters before the first newline, and the text after that newline
when there is one. -/
def splitLine : Str → Str × Option Str
  | [] => ([], none)
  | c :: t =>
    if c = '\n' then ([], some t)
    else ((c :: (splitLine t).1), (splitLine t).2)

/-- The library call `std::getline(stm, line)`.  On a stream that is not good the
sentry fails: `failbit` is set and `line` keeps its value.  Otherwise `line` is
erased and filled up to the next newline, which is consumed; reaching the end
of the text sets `eofbit`, and also `failbit` when nothing was extracted. -/
def getline (stm : IfStream) (line : Str) : IfStream × Str :=
  if !stm.good then ({ stm with failbit := true }, line)
  else
    match splitLine stm.buf with
    | (pre, some rest) => ({ stm with buf := rest }, pre)
    | (pre, none) => ({ buf := [], eofbit := true, failbit := pre.isEmpty }, pre)

/-! ## The manifest parser and the constructor -/

/-- The decimal text that `operator<<` writes for an unsigned integer. -/
def decimal (n : Nat) : Str := Nat.toDigits 10 n

/-- Message of `ParseManifest` for a file that cannot be opened; `FILE` is the
expansion of `__FILE__`. -/
def cannotOpenMessage (FILE path : Str) : Str :=
  "ERROR: ".toList ++ FILE ++ "(".toList ++ decimal 216 ++
    "): cannot open runfiles manifest \"".toList ++ path ++ "\"".toList

/-- Message of `ParseManifest` for a line without a space. -/
def badEntryMessage (FILE path : Str) (line_count : Nat) (line : Str) : Str :=
  "ERROR: ".toList ++ FILE ++ "(".toList ++ decimal 230 ++
    "): bad runfiles manifest entry in \"".toList ++ path ++ "\" line #".toList ++
    decimal line_count ++ ": \"".toList ++ line ++ "\"".toList

/-- Message of `Create` when `PathsFrom` fails. -/
def cannotFindMessage (FILE argv0 : Str) : Str :=
  "ERROR: ".toList ++ FILE ++ "(".toList ++ decimal 140 ++
    "): cannot find runfiles (argv0=\"".toList ++ argv0 ++ "\")".toList

/-- The `while (!line.empty())` loop of `ParseManifest`.  The fuel bounds the
number of loop bodies executed; `none` means the bound was reached with the
loop still running.  A finished loop yields the map (`true`) or the error
message (`false`). -/
def ParseManifest.loop (FILE path : Str) :
    Nat → IfStream → Str → Nat → StrMap → Option (Except Str StrMap)
  | fuel, stm, line, line_count, result =>
    if line.isEmpty then some (Except.ok result)
    else
      match fuel with
      | 0 => none
      | fuel + 1 =>
        let idx := find_first_of line ' '
        if idx == npos then some (Except.error (badEntryMessage FILE path line_count line))
        else
          let result := result.assign (substr line 0 idx) (substr line (idx + 1) npos)
          let r := getline stm line
          ParseManifest.loop FILE path fuel r.1 r.2 (sizeSucc line_count) result

/-- Source `RunfilesImpl::ParseManifest`, writing into the map `result`. -/
def ParseManifest (FILE : Str) (fs : FileSystem) (fuel : Nat) (path : Str) (result : StrMap) :
    Option (Except Str StrMap) :=
  match fs.file path with
  | none => some (Except.error (cannotOpenMessage FILE path))
  | some text =>
    let stm : IfStream := { buf := text, eofbit := false, failbit := false }
    let r := getline stm []
    ParseManifest.loop FILE path fuel r.1 r.2 1 result

/-- The manifest predicate that `Create` passes to `PathsFrom`. -/
def Create.is_runfiles_manifest (fs : FileSystem) (path : Str) : Bool :=
  (ends_with path "MANIFEST".toList || ends_with path ".runfiles_manifest".toList) &&
    IsReadableFile fs path

/-- The directory predicate that `Create` passes to `PathsFrom`. -/
def Create.is_runfiles_directory (fs : FileSystem) (path : Str) : Bool :=
  ends_with path ".runfiles".toList && IsDirectory fs path

/-- Source `RunfilesImpl::Create`: `Except.error` carries the message of a
`nullptr` result, `none` means the manifest loop did not finish within the fuel. -/
def RunfilesImpl.Create (FILE : Str) (fs : FileSystem) (fuel : Nat) (argv0 : Str)
    (env_lookup : Str → Str) : Option (Except Str RunfilesImpl) :=
  let paths := PathsFrom argv0 (env_lookup "RUNFILES_MANIFEST_FILE".toList)
    (env_lookup "RUNFILES_DIR".toList)
    (Create.is_runfiles_manifest fs) (Create.is_runfiles_directory fs)
  if !paths.ret then some (Except.error (cannotFindMessage FILE argv0))
  else
    let manifest := paths.out_manifest
    let directory := paths.out_directory
    let envvars : List (Str × Str) :=
      [("RUNFILES_MANIFEST_FILE".toList, manifest), ("RUNFILES_DIR".toList, directory),
        ("JAVA_RUNFILES".toList, directory)]
    if !manifest.isEmpty then
      match ParseManifest FILE fs fuel manifest [] with
      | none => none
      | some (Except.error e) => some (Except.error e)
      | some (Except.ok runfiles) =>
        some (Except.ok
          { runfiles_map_ := runfiles, directory_ := directory, envvars_ := envvars })
    else
      some (Except.ok { runfiles_map_ := [], directory_ := directory, envvars_ := envvars })

/-! ## Further vocabulary of the specification -/

/-- The lines of a text: the pieces between its newline characters.  A text
that ends with a newline has the empty piece after it as its last line. -/
def textLines : Str → List Str
  | [] => [[]]
  | c :: t =>
    if c = '\n' then [] :: textLines t
    else
      match textLines t with
      | [] => [[c]]
      | l :: r => (c :: l) :: r

/-- The lines of a text that precede its first empty line. -/
def linesBeforeBlank (text : Str) : List Str :=
  (textLines text).takeWhile (fun l => !l.isEmpty)

/-- The lines that further `getline` calls on the stream will yield; on a
stream that is not good no call yields a line. -/
def pending (stm : IfStream) : List Str :=
  if stm.good then textLines stm.buf else []

/-- The local variables of `PathsFrom` when it reaches its final `return true`:
the three derivation blocks applied to the tested hints. -/
def PathsFrom.finalState (argv0 mf dir : Str)
    (is_runfiles_manifest is_runfiles_directory : Str → Bool) : PathsState :=
  PathsFrom.dirFromManifest is_runfiles_directory
    (PathsFrom.manifestFromDir is_runfiles_manifest
      (PathsFrom.fromArgv0 argv0 is_runfiles_manifest is_runfiles_directory
        { mf := mf, dir := dir,
          mfValid := is_runfiles_manifest mf, dirValid := is_runfiles_directory dir }))

/-! ## Example file systems -/

/-- A file system with the directory "x.runfiles" and, inside it, the file
"MANIFEST" that holds the line "a/b /data/a/b". -/
def runfilesTreeFs : FileSystem where
  file := fun p =>
    if p = "x.runfiles/MANIFEST".toList then some "a/b /data/a/b\n".toList else none
  directory := fun p => p == "x.runfiles".toList

/-- A file system in which every path opens as a file with the given text. -/
def singleTextFs (text : Str) : FileSystem where
  file := fun _ => some text
  directory := fun _ => false

/-- A file system whose only file is "x.runfiles_manifest", holding the single
line "a/b c:/data/a/b" with no newline after it. -/
def unterminatedManifestFs : FileSystem where
  file := fun p =>
    if p = "x.runfiles_manifest".toList then some "a/b c:/data/a/b".toList else none
  directory := fun _ => false

/-! ## String searches: lemmas -/

/-- The forward search finds nothing exactly when `sub` does not occur in `s`. -/
theorem findPos?_eq_none_iff (sub s : Str) : findPos? sub s = none ↔ ¬ sub <:+: s := by
  induction s with
  | nil => simp [findPos?, List.isPrefixOf_iff_prefix]
  | cons c t ih =>
    rw [findPos?, List.infix_cons_iff]
    by_cases h : sub <+: c :: t
    · simp [List.isPrefixOf_iff_prefix, h]
    · simp [List.isPrefixOf_iff_prefix, h, ih]

/-- A position found by the forward search leaves room for `sub`. -/
theorem findPos?_bound (sub s : Str) (i : Nat) (h : findPos? sub s = some i) :
    i + sub.length ≤ s.length := by
  induction s generalizing i with
  | nil =>
    by_cases hp : sub <+: []
    · have : sub = [] := List.prefix_nil.mp hp
      subst this
      simp [findPos?] at h
      omega
    · simp [findPos?, List.isPrefixOf_iff_prefix, hp] at h
  | cons c t ih =>
    rw [findPos?] at h
    by_cases hp : sub <+: c :: t
    · simp [List.isPrefixOf_iff_prefix, hp] at h
      have := hp.length_le
      omega
    · simp [List.isPrefixOf_iff_prefix, hp] at h
      obtain ⟨j, hj, rfl⟩ := h
      have := ih j hj
      simp
      omega

/-- The forward search answers position 0 exactly for a prefix. -/
theorem findPos?_eq_zero_iff (sub s : Str) : findPos? sub s = some 0 ↔ sub <+: s := by
  cases s with
  | nil => simp [findPos?, List.isPrefixOf_iff_prefix]
  | cons c t =>
    rw [findPos?]
    by_cases hp : sub <+: c :: t
    · simp [List.isPrefixOf_iff_prefix, hp]
    · simp [List.isPrefixOf_iff_prefix, hp]

/-- The backward search finds nothing exactly when `sub` does not occur in `s`. -/
theorem rfindPos?_eq_none_iff (sub s : Str) : rfindPos? sub s = none ↔ ¬ sub <:+: s := by
  induction s with
  | nil => simp [rfindPos?, List.isPrefixOf_iff_prefix]
  | cons c t ih =>
    rw [rfindPos?, List.infix_cons_iff]
    cases hr : rfindPos? sub t with
    | none =>
      have := ih.mp hr
      by_cases hp : sub <+: c :: t
      · simp [List.isPrefixOf_iff_prefix, hp]
      · simp [List.isPrefixOf_iff_prefix, hp, this]
    | some j =>
      have : sub <:+: t := by
        by_contra hn
        rw [ih.mpr hn] at hr
        cases hr
      simp [this]

/-- For a suffix the backward search answers the position where the suffix starts. -/
theorem rfindPos?_of_suffix (sub s : Str) (h : sub <:+ s) :
    rfindPos? sub s = some (s.length - sub.length) := by
  induction s with
  | nil =>
    have : sub = [] := List.suffix_nil.mp h
    subst this
    simp [rfindPos?]
  | cons c t ih =>
    rw [rfindPos?]
    rcases List.suffix_cons_iff.mp h with h1 | h1
    · subst h1
      have hn : rfindPos? (c :: t) t = none := by
        rw [rfindPos?_eq_none_iff]
        intro hi
        have := hi.length_le
        simp at this
      simp [hn]
    · rw [ih h1]
      have := h1.length_le
      simp
      omega

/-- At a position found by the backward search `sub` does occur. -/
theorem rfindPos?_occurs (sub s : Str) (i : Nat) (h : rfindPos? sub s = some i) :
    sub <+: s.drop i ∧ i + sub.length ≤ s.length := by
  induction s generalizing i with
  | nil =>
    by_cases hp : sub <+: []
    · have : sub = [] := List.prefix_nil.mp hp
      subst this
      simp [rfindPos?] at h
      subst h
      simp
    · simp [rfindPos?, List.isPrefixOf_iff_prefix, hp] at h
  | cons c t ih =>
    rw [rfindPos?] at h
    cases hr : rfindPos? sub t with
    | none =>
      rw [hr] at h
      by_cases hp : sub <+: c :: t
      · simp [List.isPrefixOf_iff_prefix, hp] at h
        subst h
        have := hp.length_le
        exact ⟨by simpa using hp, by omega⟩
      · simp [List.isPrefixOf_iff_prefix, hp] at h
    | some j =>
      rw [hr] at h
      simp at h
      subst h
      have := ih j hr
      exact ⟨by simpa using this.1, by simp; omega⟩

/-- The helper `starts_with` decides the prefix relation. -/
theorem starts_with_iff (s pre : Str) : starts_with s pre = true ↔ pre <+: s := by
  unfold starts_with
  cases pre with
  | nil => simp
  | cons a p =>
    cases s with
    | nil => simp
    | cons c t =>
      have h0 : npos ≠ 0 := by decide
      simp only [List.isEmpty_cons, Bool.false_eq_true, if_false, find, beq_iff_eq]
      rw [← findPos?_eq_zero_iff]
      cases hf : findPos? (a :: p) (c :: t) with
      | none => simp [h0]
      | some i => simp

/-- A true answer of `contains` means that `sub` occurs in `s`. -/
theorem contains_sound (s sub : Str) (h : contains s sub = true) : sub <:+: s := by
  unfold contains at h
  cases sub with
  | nil => exact List.nil_infix
  | cons a p =>
    cases s with
    | nil => simp at h
    | cons c t =>
      by_contra hn
      rw [← findPos?_eq_none_iff] at hn
      simp [find, hn] at h

/-- The helper `contains` finds every occurrence in a string that a `size_t` can measure. -/
theorem contains_complete (s sub : Str) (hsz : s.length < sizeMod) (h : sub <:+: s) :
    contains s sub = true := by
  unfold contains
  cases sub with
  | nil => simp
  | cons a p =>
    cases s with
    | nil => simp at h
    | cons c t =>
      simp only [List.isEmpty_cons, Bool.false_eq_true, if_false, find, bne_iff_ne, ne_eq]
      cases hf : findPos? (a :: p) (c :: t) with
      | none => exact absurd h ((findPos?_eq_none_iff _ _).mp hf)
      | some i =>
        have hb := findPos?_bound _ _ _ hf
        simp only [List.length_cons] at hb hsz
        simp only [Option.getD_some, npos]
        omega

/-- Without underflow the `size_t` subtraction is the ordinary one. -/
theorem sizeSub_of_le (a b : Nat) (hba : b ≤ a) (ha : a < sizeMod) : sizeSub a b = a - b := by
  unfold sizeSub
  rw [Nat.mod_eq_of_lt (by omega : b < sizeMod)]
  have : a + sizeMod - b = (a - b) + sizeMod := by omega
  rw [this, Nat.add_mod_right]
  exact Nat.mod_eq_of_lt (by omega)

/-- The helper `ends_with` accepts every suffix. -/
theorem ends_with_of_suffix (s suffix : Str) (hsz : s.length < sizeMod) (h : suffix <:+ s) :
    ends_with s suffix = true := by
  unfold ends_with
  cases suffix with
  | nil => simp
  | cons a p =>
    cases s with
    | nil => simp at h
    | cons c t =>
      simp only [List.isEmpty_cons, Bool.false_eq_true, if_false, rfind, beq_iff_eq]
      rw [rfindPos?_of_suffix _ _ h, sizeSub_of_le _ _ h.length_le hsz]
      rfl

/-- For a suffix candidate no longer than `s`, a true answer of `ends_with` means a suffix. -/
theorem ends_with_imp_suffix (s suffix : Str) (hsz : s.length < sizeMod)
    (hle : suffix.length ≤ s.length) (h : ends_with s suffix = true) : suffix <:+ s := by
  unfold ends_with at h
  cases suffix with
  | nil => exact List.nil_suffix
  | cons a p =>
    cases s with
    | nil => simp at hle
    | cons c t =>
      simp only [List.isEmpty_cons, Bool.false_eq_true, if_false, rfind, beq_iff_eq] at h
      rw [sizeSub_of_le _ _ hle hsz] at h
      cases hf : rfindPos? (a :: p) (c :: t) with
      | none =>
        rw [hf] at h
        simp only [Option.getD_none, npos, List.length_cons] at h hsz
        omega
      | some i =>
        rw [hf] at h
        simp only [Option.getD_some] at h
        obtain ⟨hp, hb⟩ := rfindPos?_occurs _ _ _ hf
        have hlen : (List.drop i (c :: t)).length = (a :: p).length := by
          rw [List.length_drop]; omega
        have := hp.eq_of_length hlen.symm
        rw [this]
        exact List.drop_suffix _ _

/-! ## The resolver: lemmas -/

/-- The test `IsAbsolute` decides the absolute form of the specification. -/
theorem IsAbsolute_iff (p : Str) : IsAbsolute p = true ↔ AbsoluteForm p := by
  unfold IsAbsolute AbsoluteForm IsAsciiLetter
  match p with
  | [] => simp
  | [c] =>
    simp only [charAt, List.isEmpty_cons, Bool.false_eq_true, if_false, List.getD_cons_zero,
      List.length_cons, List.length_nil]
    constructor
    · intro h
      simp only [Bool.or_eq_true, Bool.and_eq_true, decide_eq_true_eq, beq_iff_eq] at h
      rcases h with ⟨h1, _⟩ | ⟨⟨⟨h2, _⟩, _⟩, _⟩
      · exact Or.inl ⟨[], by rw [h1], by decide⟩
      · omega
    · intro h
      rcases h with ⟨u, hu, _⟩ | ⟨c', s, u, hu, _, _⟩
      · simp only [List.cons.injEq] at hu
        simp [hu.1]
      · simp at hu
  | [c, d] =>
    simp only [charAt, List.isEmpty_cons, Bool.false_eq_true, if_false, List.getD_cons_zero,
      List.getD_cons_succ, List.length_cons, List.length_nil]
    constructor
    · intro h
      simp only [Bool.or_eq_true, Bool.and_eq_true, decide_eq_true_eq, beq_iff_eq, bne_iff_ne,
        ne_eq] at h
      rcases h with ⟨h1, h2⟩ | ⟨⟨⟨h2, _⟩, _⟩, _⟩
      · rcases h2 with h2 | h2
        · omega
        · refine Or.inl ⟨[d], by rw [h1], ?_⟩
          rw [List.cons_prefix_cons]
          exact fun hp => h2 hp.1.symm
      · omega
    · intro h
      rcases h with ⟨u, hu, hn⟩ | ⟨c', s, u, hu, _, _⟩
      · simp only [List.cons.injEq] at hu
        have hd : d ≠ '/' := by
          intro hd
          apply hn
          rw [← hu.2, hd]
        simp [hu.1, hd]
      · simp at hu
  | c :: d :: e :: t =>
    simp only [charAt, List.isEmpty_cons, Bool.false_eq_true, if_false, List.getD_cons_zero,
      List.getD_cons_succ, List.length_cons, ge_iff_le]
    constructor
    · intro h
      simp only [Bool.or_eq_true, Bool.and_eq_true, decide_eq_true_eq, beq_iff_eq, bne_iff_ne,
        ne_eq] at h
      rcases h with ⟨h1, h2⟩ | ⟨⟨⟨_, h2⟩, h3⟩, h4⟩
      · left
        refine ⟨d :: e :: t, by rw [h1], ?_⟩
        rcases h2 with h2 | h2
        · omega
        · intro hp
          rcases hp with ⟨u, hu⟩
          simp at hu
          exact h2 hu.1.symm
      · right
        exact ⟨c, e, t, by rw [h3], h2, h4⟩
    · intro h
      simp only [Bool.or_eq_true, Bool.and_eq_true, decide_eq_true_eq, beq_iff_eq, bne_iff_ne,
        ne_eq]
      rcases h with ⟨u, hu, hn⟩ | ⟨c', s, u, hu, hl, hs⟩
      · left
        simp only [List.cons.injEq] at hu
        refine ⟨hu.1, Or.inr ?_⟩
        intro hd
        apply hn
        rw [← hu.2, hd]
        exact ⟨e :: t, rfl⟩
      · right
        simp only [List.cons.injEq] at hu
        obtain ⟨rfl, rfl, rfl, rfl⟩ := hu
        exact ⟨⟨⟨by omega, hl⟩, rfl⟩, hs⟩

/-- Every rejection pattern named by the specification makes the first test of
`Rlocation` fire. -/
theorem RlocationRejects_of_pattern (path : Str) (hsz : path.length < sizeMod)
    (h : path = [] ∨ "../".toList <+: path ∨ "/../".toList <:+: path ∨
      "/..".toList <:+ path ∨ "./".toList <+: path ∨ "/./".toList <:+: path ∨
      "/.".toList <:+ path ∨ "//".toList <:+: path) :
    RlocationRejects path = true := by
  unfold RlocationRejects
  simp only [Bool.or_eq_true]
  rcases h with h | h | h | h | h | h | h | h
  · subst h
    simp
  · have := (starts_with_iff path _).mpr h
    rw [this]; simp
  · have hi : "/..".toList <:+: "/../".toList := by decide
    have := contains_complete path _ hsz (hi.trans h)
    rw [this]; simp
  · have := contains_complete path _ hsz h.isInfix
    rw [this]; simp
  · have := (starts_with_iff path _).mpr h
    rw [this]; simp
  · have := contains_complete path _ hsz h
    rw [this]; simp
  · have := ends_with_of_suffix path _ hsz h
    rw [this]; simp
  · have := contains_complete path _ hsz h
    rw [this]; simp

/-- A path of at least two characters that matches none of the tested patterns
passes the first test of `Rlocation`. -/
theorem RlocationRejects_eq_false (path : Str) (hlen : 2 ≤ path.length)
    (hsz : path.length < sizeMod)
    (h1 : ¬ "../".toList <+: path) (h2 : ¬ "/..".toList <:+: path)
    (h3 : ¬ "./".toList <+: path) (h4 : ¬ "/./".toList <:+: path)
    (h5 : ¬ "/.".toList <:+ path) (h6 : ¬ "//".toList <:+: path) :
    RlocationRejects path = false := by
  have e0 : path.isEmpty = false := by
    cases path with
    | nil => simp at hlen
    | cons c t => rfl
  have e1 : starts_with path "../".toList = false := by
    rw [Bool.eq_false_iff, ne_eq, starts_with_iff]; exact h1
  have e2 : contains path "/..".toList = false := by
    rw [Bool.eq_false_iff]; exact fun h => h2 (contains_sound _ _ h)
  have e3 : starts_with path "./".toList = false := by
    rw [Bool.eq_false_iff, ne_eq, starts_with_iff]; exact h3
  have e4 : contains path "/./".toList = false := by
    rw [Bool.eq_false_iff]; exact fun h => h4 (contains_sound _ _ h)
  have e5 : ends_with path "/.".toList = false := by
    rw [Bool.eq_false_iff]; exact fun h => h5 (ends_with_imp_suffix _ _ hsz hlen h)
  have e6 : contains path "//".toList = false := by
    rw [Bool.eq_false_iff]; exact fun h => h6 (contains_sound _ _ h)
  unfold RlocationRejects
  rw [e0, e1, e2, e3, e4, e5, e6]
  rfl

/-! ## The resolver: theorems -/

/-- C2: the path ".." consists of the single segment "..", passes the first
test of `Rlocation` and is resolved against the directory, here to "/d/..",
instead of being answered with the empty string. -/
theorem Rlocation_dotdot_resolved :
    "..".toList ∈ segments "..".toList ∧
    RlocationRejects "..".toList = false ∧
    (RunfilesImpl.mk [] "/d".toList []).Rlocation "..".toList = "/d/..".toList := by
  decide

/-- C3: a path that is empty, starts with "../" or "./", contains "/../", "/./"
or "//", or ends with "/.." or "/.", is answered with the empty string by every
resolver, before the absolute test and before the lookup. -/
theorem Rlocation_rejects_patterns (self : RunfilesImpl) (path : Str)
    (hsz : path.length < sizeMod)
    (h : path = [] ∨ "../".toList <+: path ∨ "/../".toList <:+: path ∨
      "/..".toList <:+ path ∨ "./".toList <+: path ∨ "/./".toList <:+: path ∨
      "/.".toList <:+ path ∨ "//".toList <:+: path) :
    self.Rlocation path = [] := by
  unfold RunfilesImpl.Rlocation
  rw [RlocationRejects_of_pattern path hsz h]
  rfl

/-- Witness of C3 at "/a/../b", a path that is absolute in form and a key of the index. -/
theorem Rlocation_rejects_patterns_witness :
    IsAbsolute "/a/../b".toList = true ∧
    StrMap.find [("/a/../b".toList, "/x".toList)] "/a/../b".toList = some "/x".toList ∧
    (RunfilesImpl.mk [("/a/../b".toList, "/x".toList)] "/d".toList []).Rlocation
      "/a/../b".toList = [] :=
  ⟨by decide, by decide,
    Rlocation_rejects_patterns _ "/a/../b".toList (by decide)
      (Or.inr (Or.inr (Or.inl (by decide))))⟩

/-- C4 as stated fails: "/a/..b" is absolute in form, has no "." or ".." segment
and no "//", and yet it is not returned unchanged. -/
theorem Rlocation_absolute_counterexample :
    ¬ ∀ (self : RunfilesImpl) (path : Str), path.length < sizeMod → AbsoluteForm path →
      ".".toList ∉ segments path → "..".toList ∉ segments path →
      ¬ "//".toList <:+: path → self.Rlocation path = path := by
  intro h
  have h1 := h (RunfilesImpl.mk [] [] []) "/a/..b".toList (by decide)
    (Or.inl ⟨"a/..b".toList, rfl, by decide⟩) (by decide) (by decide) (by decide)
  revert h1
  decide

/-- C4, amended: a path that is absolute in form, has at least two characters,
contains none of "/..", "/./", "//" and does not end with "/.", is returned
unchanged by every resolver. -/
theorem Rlocation_absolute_unchanged (self : RunfilesImpl) (path : Str)
    (hlen : 2 ≤ path.length) (hsz : path.length < sizeMod) (habs : AbsoluteForm path)
    (h2 : ¬ "/..".toList <:+: path) (h4 : ¬ "/./".toList <:+: path)
    (h5 : ¬ "/.".toList <:+ path) (h6 : ¬ "//".toList <:+: path) :
    self.Rlocation path = path := by
  have hdot : ∀ q : Str, '.' :: q <+: path → False := by
    intro q hq
    rcases habs with ⟨t, ht, _⟩ | ⟨c, s, t, ht, hl, _⟩
    · subst ht
      rw [List.cons_prefix_cons] at hq
      exact absurd hq.1 (by decide)
    · subst ht
      rw [List.cons_prefix_cons] at hq
      rw [← hq.1] at hl
      revert hl
      unfold IsAsciiLetter
      decide
  have h1 : ¬ "../".toList <+: path := fun hp => hdot _ hp
  have h3 : ¬ "./".toList <+: path := fun hp => hdot _ hp
  unfold RunfilesImpl.Rlocation
  rw [RlocationRejects_eq_false path hlen hsz h1 h2 h3 h4 h5 h6, (IsAbsolute_iff path).mpr habs]
  rfl

/-- Witness of C4 at "c:/data/a", which is also a key of the index. -/
theorem Rlocation_absolute_unchanged_witness :
    (RunfilesImpl.mk [("c:/data/a".toList, "/x".toList)] "/d".toList []).Rlocation
      "c:/data/a".toList = "c:/data/a".toList :=
  Rlocation_absolute_unchanged _ "c:/data/a".toList (by decide) (by decide)
    (Or.inr ⟨'c', '/', "data/a".toList, rfl, by unfold IsAsciiLetter; decide, Or.inr rfl⟩)
    (by decide) (by decide) (by decide) (by decide)

/-- C5 as stated fails: "a/..b" meets every condition of a valid logical path,
and the resolver with an empty index and the directory "/d" answers with the
empty string. -/
theorem Rlocation_fallback_counterexample :
    ¬ ∀ (D p : Str) (env : List (Str × Str)), D ≠ [] → p.length < sizeMod → p ≠ [] →
      ¬ AbsoluteForm p → ¬ "../".toList <+: p → ¬ "./".toList <+: p →
      ¬ "/../".toList <:+: p → ¬ "/./".toList <:+: p → ¬ "//".toList <:+: p →
      ¬ "/..".toList <:+ p → ¬ "/.".toList <:+ p →
      (RunfilesImpl.mk [] D env).Rlocation p = D ++ "/".toList ++ p := by
  intro h
  have h1 := h "/d".toList "a/..b".toList [] (by decide) (by decide) (by decide)
    (by rw [← IsAbsolute_iff]; decide) (by decide) (by decide) (by decide) (by decide)
    (by decide) (by decide) (by decide)
  revert h1
  decide

/-- C5, amended: with an empty index and a non-empty directory `D`, a path of
at least two characters that is not absolute, does not start with "../" or
"./", contains none of "/..", "/./", "//" and does not end with "/.", resolves
to `D + "/" + p`. -/
theorem Rlocation_directory_fallback (D p : Str) (env : List (Str × Str)) (hD : D ≠ [])
    (hlen : 2 ≤ p.length) (hsz : p.length < sizeMod) (habs : ¬ AbsoluteForm p)
    (h1 : ¬ "../".toList <+: p) (h3 : ¬ "./".toList <+: p)
    (h2 : ¬ "/..".toList <:+: p) (h4 : ¬ "/./".toList <:+: p)
    (h6 : ¬ "//".toList <:+: p) (h5 : ¬ "/.".toList <:+ p) :
    (RunfilesImpl.mk [] D env).Rlocation p = D ++ "/".toList ++ p := by
  have ha : IsAbsolute p = false := by
    rw [Bool.eq_false_iff, ne_eq, IsAbsolute_iff]; exact habs
  have hDe : D.isEmpty = false := by
    cases D with
    | nil => exact absurd rfl hD
    | cons c t => rfl
  unfold RunfilesImpl.Rlocation
  rw [RlocationRejects_eq_false p hlen hsz h1 h2 h3 h4 h5 h6, ha]
  simp [StrMap.find, hDe]

/-- Witness of C5 at the directory "/run/x.runfiles" and the path "pkg/file". -/
theorem Rlocation_directory_fallback_witness :
    (RunfilesImpl.mk [] "/run/x.runfiles".toList []).Rlocation "pkg/file".toList =
      "/run/x.runfiles/pkg/file".toList :=
  Rlocation_directory_fallback "/run/x.runfiles".toList "pkg/file".toList [] (by decide)
    (by decide) (by decide) (by rw [← IsAbsolute_iff]; decide) (by decide) (by decide)
    (by decide) (by decide) (by decide) (by decide)

/-! ## The manifest parser: lemmas -/

/-- The position of the first `c` splits a line into the text before and after it. -/
theorem charPos?_of_mem (c : Char) (l : Str) (h : c ∈ l) :
    ∃ i, charPos? c l = some i ∧ i < l.length ∧ l.take i = l.takeWhile (· != c) ∧
      l.drop (i + 1) = (l.dropWhile (· != c)).drop 1 := by
  induction l with
  | nil => simp at h
  | cons d t ih =>
    by_cases hd : d = c
    · subst hd
      exact ⟨0, by simp [charPos?], by simp, by simp [List.takeWhile], by simp [List.dropWhile]⟩
    · have ht : c ∈ t := by
        rcases List.mem_cons.mp h with h1 | h1
        · exact absurd h1.symm hd
        · exact h1
      obtain ⟨i, h1, h2, h3, h4⟩ := ih ht
      have hb : (d != c) = true := by simp [hd]
      refine ⟨i + 1, by simp [charPos?, hd, h1], by simp; omega, ?_, ?_⟩
      · rw [List.takeWhile_cons, hb, List.take_succ_cons, h3]
        rfl
      · rw [List.dropWhile_cons, hb, List.drop_succ_cons, h4]
        rfl

/-- Splitting a text that starts with a newline-terminated line. -/
theorem splitLine_line (l rest : Str) (h : '\n' ∉ l) :
    splitLine (l ++ '\n' :: rest) = (l, some rest) := by
  induction l with
  | nil => simp [splitLine]
  | cons d t ih =>
    have hd : d ≠ '\n' := fun e => h (by simp [e])
    have ht : '\n' ∉ t := fun e => h (List.mem_cons_of_mem _ e)
    simp [splitLine, hd, ih ht]

/-- On a good stream `getline` reads the next newline-terminated line and stays good. -/
theorem getline_line (l rest line : Str) (h : '\n' ∉ l) :
    getline { buf := l ++ '\n' :: rest, eofbit := false, failbit := false } line =
      ({ buf := rest, eofbit := false, failbit := false }, l) := by
  simp [getline, IfStream.good, splitLine_line l rest h]

/-- On a good stream with no text left `getline` yields the empty line. -/
theorem getline_end (line : Str) :
    (getline { buf := [], eofbit := false, failbit := false } line).2 = [] := by
  simp [getline, IfStream.good, splitLine]

/-- Lookup after an assignment. -/
theorem StrMap.find_assign (m : StrMap) (k v key : Str) :
    (m.assign k v).find key = if k = key then some v else m.find key := by
  induction m with
  | nil => simp [StrMap.assign, StrMap.find]
  | cons e t ih =>
    obtain ⟨k', v'⟩ := e
    by_cases h1 : k' = k
    · subst h1
      by_cases h2 : k' = key <;> simp [StrMap.assign, StrMap.find, h2]
    · by_cases h2 : k' = key
      · subst h2
        have : ¬ k = k' := fun e => h1 e.symm
        simp [StrMap.assign, StrMap.find, h1, this]
      · simp [StrMap.assign, StrMap.find, h1, h2, ih]

/-- Lookup in the index of some lines: the last line with the key wins, else the old entry. -/
theorem manifestIndex_find (lines : List Str) (m : StrMap) (K : Str) :
    (manifestIndex lines m).find K =
      (((lines.filter (fun l => keyOf l = K)).getLast?).map valueOf).or (m.find K) := by
  induction lines using List.reverseRecOn with
  | nil => simp [manifestIndex]
  | append_singleton init l ih =>
    unfold manifestIndex at ih ⊢
    rw [List.foldl_append, List.foldl_cons, List.foldl_nil, StrMap.find_assign, ih,
      List.filter_append]
    by_cases h : keyOf l = K
    · simp [h, List.getLast?_append]
    · simp [h]

/-- The parser loop, started on a well-formed line and the text of well-formed lines, finishes
with their index when the fuel exceeds the number of remaining lines. -/
theorem ParseManifest.loop_lines (FILE path : Str) (rest : List Str) (cur : Str)
    (fuel cnt : Nat) (m : StrMap) (hcur : WellFormedLine cur)
    (hrest : ∀ l ∈ rest, WellFormedLine l) (hfuel : rest.length < fuel) :
    ParseManifest.loop FILE path fuel
        { buf := manifestText rest, eofbit := false, failbit := false } cur cnt m =
      some (Except.ok (manifestIndex (cur :: rest) m)) := by
  have step : ∀ (cur : Str) (f cnt : Nat) (m : StrMap) (stm : IfStream), WellFormedLine cur →
      ParseManifest.loop FILE path (f + 1) stm cur cnt m =
        ParseManifest.loop FILE path f (getline stm cur).1 (getline stm cur).2 (sizeSucc cnt)
          (m.assign (keyOf cur) (valueOf cur)) := by
    intro cur f cnt m stm hcur
    obtain ⟨hne, hsp, _, hsz⟩ := hcur
    obtain ⟨i, h1, h2, h3, h4⟩ := charPos?_of_mem ' ' cur hsp
    have he : cur.isEmpty = false := by
      cases cur with
      | nil => exact absurd rfl hne
      | cons c t => rfl
    have hidx : find_first_of cur ' ' = i := by simp [find_first_of, h1]
    have hnp : (i == npos) = false := by
      rw [beq_eq_false_iff_ne]
      unfold npos
      omega
    have hk : substr cur 0 i = keyOf cur := by simp [substr, keyOf, h3]
    have hv : substr cur (i + 1) npos = valueOf cur := by
      unfold substr valueOf
      rw [← h4]
      apply List.take_of_length_le
      rw [List.length_drop]
      unfold npos
      omega
    rw [ParseManifest.loop]
    simp only [he, hidx, hnp, hk, hv, Bool.false_eq_true, if_false]
  induction rest generalizing cur fuel cnt m with
  | nil =>
    cases fuel with
    | zero => simp at hfuel
    | succ f =>
      rw [step cur f cnt m _ hcur]
      simp only [manifestText, getline_end]
      rw [ParseManifest.loop.eq_def]
      simp [manifestIndex]
  | cons l rest ih =>
    cases fuel with
    | zero => simp at hfuel
    | succ f =>
      have hl : WellFormedLine l := hrest l (List.mem_cons_self _ _)
      rw [step cur f cnt m _ hcur]
      simp only [manifestText, getline_line l _ cur hl.2.2.1]
      rw [ih l f (sizeSucc cnt) _ hl (fun x hx => hrest x (List.mem_cons_of_mem _ hx))
        (by simp at hfuel; omega)]
      simp [manifestIndex]

/-- On a manifest made of well-formed lines the parser finishes, within one loop
body per line, with the index that the lines describe. -/
theorem ParseManifest_lines (FILE : Str) (fs : FileSystem) (fuel : Nat) (path : Str)
    (lines : List Str) (m : StrMap) (hfile : fs.file path = some (manifestText lines))
    (hlines : ∀ l ∈ lines, WellFormedLine l) (hfuel : lines.length ≤ fuel) :
    ParseManifest FILE fs fuel path m = some (Except.ok (manifestIndex lines m)) := by
  unfold ParseManifest
  rw [hfile]
  cases lines with
  | nil =>
    simp only [manifestText, getline_end]
    rw [ParseManifest.loop.eq_def]
    simp [manifestIndex]
  | cons l rest =>
    have hl : WellFormedLine l := hlines l (List.mem_cons_self _ _)
    simp only [manifestText, getline_line l _ [] hl.2.2.1]
    exact ParseManifest.loop_lines FILE path rest l fuel 1 m hl
      (fun x hx => hlines x (List.mem_cons_of_mem _ hx)) (by simpa using hfuel)

/-! ## The manifest round trip -/

/-- Round trip on a manifest whose lines all end in a newline: a key `K` that
passes the validation of `Rlocation` and is not absolute resolves to the text
after the first space of the last line whose key is `K`, whatever the
directory of the resolver. -/
theorem Rlocation_manifest_round_trip (FILE : Str) (fs : FileSystem) (fuel : Nat)
    (path : Str) (lines : List Str) (dir : Str) (env : List (Str × Str)) (K line : Str)
    (hfile : fs.file path = some (manifestText lines))
    (hlines : ∀ l ∈ lines, WellFormedLine l) (hfuel : lines.length ≤ fuel)
    (hlast : (lines.filter (fun l => keyOf l = K)).getLast? = some line)
    (hvalid : RlocationRejects K = false) (habs : IsAbsolute K = false) :
    ∃ m, ParseManifest FILE fs fuel path [] = some (Except.ok m) ∧
      (RunfilesImpl.mk m dir env).Rlocation K = valueOf line := by
  refine ⟨manifestIndex lines [], ParseManifest_lines FILE fs fuel path lines [] hfile hlines
    hfuel, ?_⟩
  unfold RunfilesImpl.Rlocation
  simp only [hvalid, habs, Bool.false_eq_true, if_false]
  rw [manifestIndex_find, hlast]
  rfl

/-- Example of the round trip: the manifest line "a/b c:/data/a/b", followed by
its newline, gives `Rlocation("a/b") = "c:/data/a/b"`. -/
theorem Rlocation_manifest_round_trip_witness :
    ∃ m, ParseManifest "runfiles.cc".toList
        { file := fun _ => some "a/b c:/data/a/b\n".toList, directory := fun _ => false } 1
        "MANIFEST".toList [] = some (Except.ok m) ∧
      (RunfilesImpl.mk m "/d".toList []).Rlocation "a/b".toList = "c:/data/a/b".toList :=
  Rlocation_manifest_round_trip "runfiles.cc".toList
    { file := fun _ => some "a/b c:/data/a/b\n".toList, directory := fun _ => false } 1
    "MANIFEST".toList ["a/b c:/data/a/b".toList] "/d".toList [] "a/b".toList
    "a/b c:/data/a/b".toList (by decide)
    (by intro l hl; rw [List.mem_singleton] at hl; subst hl; unfold WellFormedLine; decide)
    (by decide) (by decide) (by decide) (by decide)

/-! ## The locator: theorems -/

/-- Removing the last nine characters of `p ++ q`, for a nine-character `q`
and a total size that a `size_t` holds, leaves `p`. -/
theorem substr_strip_suffix (p q : Str) (hq : q.length = kSubstrLen)
    (hsz : (p ++ q).length < sizeMod) :
    substr (p ++ q) 0 (sizeSub (p ++ q).length kSubstrLen) = p := by
  have h9 : kSubstrLen % sizeMod = kSubstrLen := by decide
  have hlen : (p ++ q).length = p.length + kSubstrLen := by simp [hq]
  have hsub : sizeSub (p ++ q).length kSubstrLen = p.length := by
    unfold sizeSub
    rw [h9, hlen]
    rw [hlen] at hsz
    have : p.length + kSubstrLen + sizeMod - kSubstrLen = p.length + sizeMod := by omega
    rw [this, Nat.add_mod_right]
    exact Nat.mod_eq_of_lt (by omega)
  rw [hsub]
  simp [substr]

/-- C6: `PathsFrom` returns false exactly when none of the two hints and the
three candidates derived from `argv0` validates, and a false return leaves both
outputs empty. -/
theorem PathsFrom_false_iff (argv0 mf dir : Str) (is_m is_d : Str → Bool) :
    ((PathsFrom argv0 mf dir is_m is_d).ret = false ↔
      (is_m mf = false ∧ is_d dir = false ∧
        is_m (argv0 ++ ".runfiles/MANIFEST".toList) = false ∧
        is_d (argv0 ++ ".runfiles".toList) = false ∧
        is_m (argv0 ++ ".runfiles_manifest".toList) = false)) ∧
    ((PathsFrom argv0 mf dir is_m is_d).ret = false →
      (PathsFrom argv0 mf dir is_m is_d).out_manifest = [] ∧
      (PathsFrom argv0 mf dir is_m is_d).out_directory = []) := by
  unfold PathsFrom PathsFrom.fromArgv0
  generalize argv0 ++ ".runfiles/MANIFEST".toList = c1
  generalize argv0 ++ ".runfiles".toList = c2
  generalize argv0 ++ ".runfiles_manifest".toList = c3
  cases h1 : is_m mf <;> cases h2 : is_d dir <;> cases h3 : is_m c1 <;>
    cases h4 : is_d c2 <;> cases h5 : is_m c3 <;> simp [h1, h2, h3, h4, h5]

/-- C7: when both hints validate, `PathsFrom` returns true and hands back the
two hints unchanged. -/
theorem PathsFrom_both_hints (argv0 mf dir : Str) (is_m is_d : Str → Bool)
    (hm : is_m mf = true) (hd : is_d dir = true) :
    PathsFrom argv0 mf dir is_m is_d =
      { ret := true, out_manifest := mf, out_directory := dir } := by
  simp [PathsFrom, PathsFrom.fromArgv0, PathsFrom.manifestFromDir,
    PathsFrom.dirFromManifest, hm, hd]

/-- C8: with no valid hint the outputs are the candidates derived from the
launch path: the manifest `argv0 + ".runfiles/MANIFEST"`, else
`argv0 + ".runfiles_manifest"`, else empty, and the directory
`argv0 + ".runfiles"`, else empty. -/
theorem PathsFrom_from_argv0 (argv0 mf dir : Str) (is_m is_d : Str → Bool)
    (hm : is_m mf = false) (hd : is_d dir = false)
    (hsz : (argv0 ++ ".runfiles/MANIFEST".toList).length < sizeMod) :
    (PathsFrom argv0 mf dir is_m is_d).out_manifest =
      (if is_m (argv0 ++ ".runfiles/MANIFEST".toList) then argv0 ++ ".runfiles/MANIFEST".toList
       else if is_m (argv0 ++ ".runfiles_manifest".toList) then
         argv0 ++ ".runfiles_manifest".toList
       else []) ∧
    (PathsFrom argv0 mf dir is_m is_d).out_directory =
      (if is_d (argv0 ++ ".runfiles".toList) then argv0 ++ ".runfiles".toList else []) := by
  have s1 := substr_strip_suffix (argv0 ++ ".runfiles".toList) "/MANIFEST".toList
    (by decide) (by simpa using hsz)
  have s3 := substr_strip_suffix (argv0 ++ ".runfiles".toList) "_manifest".toList
    (by decide) (by simpa using hsz)
  unfold PathsFrom PathsFrom.fromArgv0 PathsFrom.manifestFromDir PathsFrom.dirFromManifest
  cases h3 : is_m (argv0 ++ ".runfiles/MANIFEST".toList) <;>
    cases h4 : is_d (argv0 ++ ".runfiles".toList) <;>
    cases h5 : is_m (argv0 ++ ".runfiles_manifest".toList) <;>
    simp at h3 h4 h5 s1 s3 <;>
    simp [hm, hd, h3, h4, h5, s1, s3]

/-- Witness of C8 at `argv0 = "x"`, where only `"x.runfiles_manifest"` is a manifest. -/
theorem PathsFrom_from_argv0_witness :
    (PathsFrom "x".toList [] [] (fun p => p == "x.runfiles_manifest".toList)
        (fun _ => false)).out_manifest = "x.runfiles_manifest".toList ∧
    (PathsFrom "x".toList [] [] (fun p => p == "x.runfiles_manifest".toList)
        (fun _ => false)).out_directory = [] :=
  PathsFrom_from_argv0 "x".toList [] [] (fun p => p == "x.runfiles_manifest".toList)
    (fun _ => false) (by decide) (by decide) (by decide)

/-- Witness of C7 at the hints `"m"` and `"d"`. -/
theorem PathsFrom_both_hints_witness :
    PathsFrom "x".toList "m".toList "d".toList (fun p => p == "m".toList)
        (fun p => p == "d".toList) =
      { ret := true, out_manifest := "m".toList, out_directory := "d".toList } :=
  PathsFrom_both_hints "x".toList "m".toList "d".toList (fun p => p == "m".toList)
    (fun p => p == "d".toList) (by decide) (by decide)

/-- C9: when only the directory hint `D` validates, `PathsFrom` returns true with
the directory `D` and the manifest `D + "/MANIFEST"`, else `D + "_manifest"`,
else empty. -/
theorem PathsFrom_directory_only (argv0 mf D : Str) (is_m is_d : Str → Bool)
    (hm : is_m mf = false) (hd : is_d D = true) :
    PathsFrom argv0 mf D is_m is_d =
      { ret := true,
        out_manifest :=
          if is_m (D ++ "/MANIFEST".toList) then D ++ "/MANIFEST".toList
          else if is_m (D ++ "_manifest".toList) then D ++ "_manifest".toList
          else [],
        out_directory := D } := by
  unfold PathsFrom PathsFrom.fromArgv0 PathsFrom.manifestFromDir PathsFrom.dirFromManifest
  cases h1 : is_m (D ++ "/MANIFEST".toList) <;> cases h2 : is_m (D ++ "_manifest".toList) <;>
    simp at h1 h2 <;> simp [hm, hd, h1, h2]

/-- Witness of C9 at `D = "d"`, where both derived manifests validate and
"d/MANIFEST" is chosen. -/
theorem PathsFrom_directory_only_witness :
    PathsFrom "x".toList [] "d".toList (fun p => p.length == 10) (fun p => p == "d".toList) =
      { ret := true, out_manifest := "d/MANIFEST".toList, out_directory := "d".toList } :=
  (PathsFrom_directory_only "x".toList [] "d".toList (fun p => p.length == 10)
    (fun p => p == "d".toList) (by decide) (by decide)).trans (by decide)

/-- C10: when the manifest hint or the directory hint validates, the result of
`PathsFrom` is the same for every two launch paths. -/
theorem PathsFrom_hint_ignores_argv0 (argv0 argv0' mf dir : Str) (is_m is_d : Str → Bool)
    (h : is_m mf = true ∨ is_d dir = true) :
    PathsFrom argv0 mf dir is_m is_d = PathsFrom argv0' mf dir is_m is_d := by
  unfold PathsFrom PathsFrom.fromArgv0
  rcases h with h | h <;> simp [h]

/-- Witness of C10 at the launch paths `"x"` and `"y"` with a valid manifest hint. -/
theorem PathsFrom_hint_ignores_argv0_witness :
    PathsFrom "x".toList "m".toList [] (fun p => p == "m".toList) (fun _ => false) =
      PathsFrom "y".toList "m".toList [] (fun p => p == "m".toList) (fun _ => false) :=
  PathsFrom_hint_ignores_argv0 "x".toList "y".toList "m".toList [] (fun p => p == "m".toList)
    (fun _ => false) (Or.inl (by decide))

/-! ## The resolver: unmapped paths and empty entries -/

/-- C17: a resolver with an empty index and an empty directory answers every
path that is not absolute in form with the empty string. -/
theorem Rlocation_unmapped_no_directory (env : List (Str × Str)) (p : Str)
    (habs : ¬ AbsoluteForm p) :
    (RunfilesImpl.mk [] [] env).Rlocation p = [] := by
  have ha : IsAbsolute p = false := by
    rw [Bool.eq_false_iff, ne_eq, IsAbsolute_iff]; exact habs
  unfold RunfilesImpl.Rlocation
  cases hr : RlocationRejects p <;> simp [ha, StrMap.find]

/-- Witness of C17 at the valid logical path "pkg/file". -/
theorem Rlocation_unmapped_no_directory_witness :
    (RunfilesImpl.mk [] [] []).Rlocation "pkg/file".toList = [] :=
  Rlocation_unmapped_no_directory [] "pkg/file".toList (by rw [← IsAbsolute_iff]; decide)

/-- C16 as stated fails: the manifest line "ab " parses successfully and maps
"ab" to the empty string, so that `Rlocation("ab")` is empty although "ab"
passes validation and the directory "/d" is not empty. -/
theorem Rlocation_empty_entry_counterexample :
    ¬ ∀ (FILE : Str) (fs : FileSystem) (fuel : Nat) (mpath : Str) (m : StrMap) (dir : Str)
      (env : List (Str × Str)) (path : Str),
      ParseManifest FILE fs fuel mpath [] = some (Except.ok m) → dir ≠ [] →
      RlocationRejects path = false → (RunfilesImpl.mk m dir env).Rlocation path ≠ [] := by
  intro h
  have h1 := h [] { file := fun _ => some "ab \n".toList, directory := fun _ => false } 1
    "MANIFEST".toList [("ab".toList, [])] "/d".toList [] "ab".toList rfl (by decide)
    (by decide)
  revert h1
  decide

/-- C16, amended: with a non-empty directory, a path that passes validation is
answered with the empty string exactly when it is not absolute and the index
maps it to the empty string; every other such path gets a non-empty answer. -/
theorem Rlocation_empty_iff (m : StrMap) (dir : Str) (env : List (Str × Str)) (path : Str)
    (hdir : dir ≠ []) (hvalid : RlocationRejects path = false) :
    (RunfilesImpl.mk m dir env).Rlocation path = [] ↔
      (IsAbsolute path = false ∧ m.find path = some []) := by
  have hne : path ≠ [] := by
    intro h
    subst h
    revert hvalid
    decide
  unfold RunfilesImpl.Rlocation
  simp only [hvalid, Bool.false_eq_true, if_false]
  cases ha : IsAbsolute path with
  | true => simp [hne]
  | false =>
    cases hf : m.find path with
    | none =>
      cases dir with
      | nil => exact absurd rfl hdir
      | cons c t => simp
    | some v => simp

/-- Witness of C16 at the index of the manifest line "ab ", the directory "/d"
and the path "ab". -/
theorem Rlocation_empty_iff_witness :
    (RunfilesImpl.mk [("ab".toList, [])] "/d".toList []).Rlocation "ab".toList = [] ↔
      (IsAbsolute "ab".toList = false ∧
        StrMap.find [("ab".toList, [])] "ab".toList = some []) :=
  Rlocation_empty_iff [("ab".toList, [])] "/d".toList [] "ab".toList (by decide) (by decide)

/-! ## The helper `ends_with` and the nine-character strip -/

/-- C20: `ends_with("a", "/.")` is true although "a" does not end with "/.", so
that `Rlocation` rejects "a"; and the directory predicate of `Create` accepts
the eight-character path "/tmp/abc", which does not end with ".runfiles". -/
theorem ends_with_longer_suffix :
    ends_with "a".toList "/.".toList = true ∧ ¬ "/.".toList <:+ "a".toList ∧
    rfind "a".toList "/.".toList = npos ∧ sizeSub 1 2 = npos ∧
    RlocationRejects "a".toList = true ∧
    Create.is_runfiles_directory { file := fun _ => none, directory := fun _ => true }
      "/tmp/abc".toList = true ∧
    ¬ ".runfiles".toList <:+ "/tmp/abc".toList := by
  decide

/-- C18: for the three-character manifest hint "abc" the strip of nine
characters wraps around and leaves "abc" itself, so that `out_directory` is
"abc", equal to `out_manifest`, and not the empty string. -/
theorem PathsFrom_short_manifest :
    PathsFrom "x".toList "abc".toList [] (fun p => p == "abc".toList)
        (fun p => p == "abc".toList) =
      { ret := true, out_manifest := "abc".toList, out_directory := "abc".toList } ∧
    sizeSub 3 kSubstrLen = sizeMod - 6 ∧
    substr "abc".toList 0 (sizeSub 3 kSubstrLen) = "abc".toList := by
  decide

/-! ## The locator: derivation lemmas -/

/-- With two valid hints no derivation block changes anything. -/
theorem PathsFrom_of_both (argv0 mf dir : Str) (is_m is_d : Str → Bool)
    (hm : is_m mf = true) (hd : is_d dir = true) :
    PathsFrom argv0 mf dir is_m is_d =
      { ret := true, out_manifest := mf, out_directory := dir } := by
  simp [PathsFrom, PathsFrom.fromArgv0, PathsFrom.manifestFromDir,
    PathsFrom.dirFromManifest, hm, hd]

/-- With only a valid directory hint the manifest is derived from it. -/
theorem PathsFrom_of_directory (argv0 mf D : Str) (is_m is_d : Str → Bool)
    (hm : is_m mf = false) (hd : is_d D = true) :
    PathsFrom argv0 mf D is_m is_d =
      { ret := true,
        out_manifest :=
          if is_m (D ++ "/MANIFEST".toList) then D ++ "/MANIFEST".toList
          else if is_m (D ++ "_manifest".toList) then D ++ "_manifest".toList
          else [],
        out_directory := D } := by
  unfold PathsFrom PathsFrom.fromArgv0 PathsFrom.manifestFromDir PathsFrom.dirFromManifest
  cases h1 : is_m (D ++ "/MANIFEST".toList) <;> cases h2 : is_m (D ++ "_manifest".toList) <;>
    simp at h1 h2 <;> simp [hm, hd, h1, h2]

/-- With only a valid manifest hint the directory is what `substr` leaves of it. -/
theorem PathsFrom_of_manifest (argv0 m dir : Str) (is_m is_d : Str → Bool)
    (hm : is_m m = true) (hd : is_d dir = false) :
    PathsFrom argv0 m dir is_m is_d =
      { ret := true,
        out_manifest := m,
        out_directory :=
          if is_d (substr m 0 (sizeSub m.length kSubstrLen)) then
            substr m 0 (sizeSub m.length kSubstrLen)
          else [] } := by
  unfold PathsFrom PathsFrom.fromArgv0 PathsFrom.manifestFromDir PathsFrom.dirFromManifest
  cases h1 : is_d (substr m 0 (sizeSub m.length kSubstrLen)) <;> simp [hm, hd, h1]

/-- With no valid hint the run continues as if the candidates derived from
`argv0` had been the hints. -/
theorem PathsFrom_of_neither (argv0 mf dir : Str) (is_m is_d : Str → Bool)
    (hm : is_m mf = false) (hd : is_d dir = false) :
    PathsFrom argv0 mf dir is_m is_d =
      PathsFrom argv0
        (if is_m (argv0 ++ ".runfiles/MANIFEST".toList) then
          argv0 ++ ".runfiles/MANIFEST".toList
        else argv0 ++ ".runfiles_manifest".toList)
        (argv0 ++ ".runfiles".toList) is_m is_d := by
  unfold PathsFrom PathsFrom.fromArgv0
  cases h3 : is_m (argv0 ++ ".runfiles/MANIFEST".toList) <;>
    cases h4 : is_d (argv0 ++ ".runfiles".toList) <;>
    cases h5 : is_m (argv0 ++ ".runfiles_manifest".toList) <;>
    simp at h3 h4 h5 <;> simp [hm, hd, h3, h4, h5]

/-- A run with two invalid hints whose derived candidates are invalid too fails. -/
theorem PathsFrom_ret_of_neither (argv0 mf dir : Str) (is_m is_d : Str → Bool)
    (hm : is_m mf = false) (hd : is_d dir = false)
    (hret : (PathsFrom argv0 mf dir is_m is_d).ret = true) :
    is_m (if is_m (argv0 ++ ".runfiles/MANIFEST".toList) then
          argv0 ++ ".runfiles/MANIFEST".toList
        else argv0 ++ ".runfiles_manifest".toList) = true ∨
      is_d (argv0 ++ ".runfiles".toList) = true := by
  revert hret
  unfold PathsFrom PathsFrom.fromArgv0
  cases h3 : is_m (argv0 ++ ".runfiles/MANIFEST".toList) <;>
    cases h4 : is_d (argv0 ++ ".runfiles".toList) <;>
    cases h5 : is_m (argv0 ++ ".runfiles_manifest".toList) <;>
    simp at h3 h4 h5 <;> simp [hm, hd, h3, h4, h5]

/-- What a run with at least one valid hint returns validates again as it is:
a second run on the outputs, from any launch path, returns them unchanged. -/
theorem PathsFrom_outputs_fixed (argv0 argv0' a b : Str) (is_m is_d : Str → Bool)
    (hem : is_m [] = false) (hed : is_d [] = false)
    (h : is_m a = true ∨ is_d b = true) :
    PathsFrom argv0' (PathsFrom argv0 a b is_m is_d).out_manifest
        (PathsFrom argv0 a b is_m is_d).out_directory is_m is_d =
      { ret := true,
        out_manifest := (PathsFrom argv0 a b is_m is_d).out_manifest,
        out_directory := (PathsFrom argv0 a b is_m is_d).out_directory } := by
  cases ha : is_m a with
  | true =>
    cases hb : is_d b with
    | true =>
      rw [PathsFrom_of_both argv0 a b is_m is_d ha hb]
      exact PathsFrom_of_both argv0' a b is_m is_d ha hb
    | false =>
      rw [PathsFrom_of_manifest argv0 a b is_m is_d ha hb]
      cases hs : is_d (substr a 0 (sizeSub a.length kSubstrLen)) with
      | true =>
        simp only [if_true]
        exact PathsFrom_of_both argv0' a _ is_m is_d ha hs
      | false =>
        simp only [Bool.false_eq_true, if_false]
        rw [PathsFrom_of_manifest argv0' a [] is_m is_d ha hed, hs]
        simp
  | false =>
    have hb : is_d b = true := by
      rcases h with h | h
      · rw [ha] at h; cases h
      · exact h
    rw [PathsFrom_of_directory argv0 a b is_m is_d ha hb]
    cases h1 : is_m (b ++ "/MANIFEST".toList) with
    | true =>
      simp only [if_true]
      exact PathsFrom_of_both argv0' _ b is_m is_d h1 hb
    | false =>
      cases h2 : is_m (b ++ "_manifest".toList) with
      | true =>
        simp only [Bool.false_eq_true, if_false, if_true]
        exact PathsFrom_of_both argv0' _ b is_m is_d h2 hb
      | false =>
        simp only [Bool.false_eq_true, if_false]
        rw [PathsFrom_of_directory argv0' [] b is_m is_d hem hb, h1, h2]
        simp

/-- C13: when the predicates reject the empty string, the outputs of a
successful run are a fixed point: a second run that receives them as hints,
from any launch path, returns true with exactly the same outputs. -/
theorem PathsFrom_exported_fixed_point (argv0 argv0' mf dir : Str) (is_m is_d : Str → Bool)
    (hem : is_m [] = false) (hed : is_d [] = false)
    (hret : (PathsFrom argv0 mf dir is_m is_d).ret = true) :
    PathsFrom argv0' (PathsFrom argv0 mf dir is_m is_d).out_manifest
        (PathsFrom argv0 mf dir is_m is_d).out_directory is_m is_d =
      { ret := true,
        out_manifest := (PathsFrom argv0 mf dir is_m is_d).out_manifest,
        out_directory := (PathsFrom argv0 mf dir is_m is_d).out_directory } := by
  cases hm : is_m mf with
  | true => exact PathsFrom_outputs_fixed argv0 argv0' mf dir is_m is_d hem hed (Or.inl hm)
  | false =>
    cases hd : is_d dir with
    | true => exact PathsFrom_outputs_fixed argv0 argv0' mf dir is_m is_d hem hed (Or.inr hd)
    | false =>
      have hc := PathsFrom_ret_of_neither argv0 mf dir is_m is_d hm hd hret
      rw [PathsFrom_of_neither argv0 mf dir is_m is_d hm hd]
      exact PathsFrom_outputs_fixed argv0 argv0' _ _ is_m is_d hem hed hc

/-- Witness of C13: the launch path "x" finds "x.runfiles_manifest", and a
child with the launch path "y" that receives the outputs finds the same. -/
theorem PathsFrom_exported_fixed_point_witness :
    PathsFrom "y".toList "x.runfiles_manifest".toList []
        (fun p => p == "x.runfiles_manifest".toList) (fun _ => false) =
      { ret := true, out_manifest := "x.runfiles_manifest".toList, out_directory := [] } :=
  PathsFrom_exported_fixed_point "x".toList "y".toList [] []
    (fun p => p == "x.runfiles_manifest".toList) (fun _ => false) (by decide) (by decide)
    (by decide)

/-! ## The locator: postcondition -/

/-- The first block leaves each flag equal to the verdict on its path. -/
theorem PathsFrom.fromArgv0_flags (argv0 mf dir : Str) (is_m is_d : Str → Bool) :
    (PathsFrom.fromArgv0 argv0 is_m is_d
        { mf := mf, dir := dir, mfValid := is_m mf, dirValid := is_d dir }).mfValid =
      is_m (PathsFrom.fromArgv0 argv0 is_m is_d
        { mf := mf, dir := dir, mfValid := is_m mf, dirValid := is_d dir }).mf ∧
    (PathsFrom.fromArgv0 argv0 is_m is_d
        { mf := mf, dir := dir, mfValid := is_m mf, dirValid := is_d dir }).dirValid =
      is_d (PathsFrom.fromArgv0 argv0 is_m is_d
        { mf := mf, dir := dir, mfValid := is_m mf, dirValid := is_d dir }).dir := by
  unfold PathsFrom.fromArgv0
  dsimp only
  split
  · split <;> simp
  · simp

/-- The second block keeps the directory and its flag, never clears the
manifest flag, and leaves it equal to the verdict on the manifest path. -/
theorem PathsFrom.manifestFromDir_flags (is_m : Str → Bool) (st : PathsState)
    (h : st.mfValid = is_m st.mf) :
    (PathsFrom.manifestFromDir is_m st).mfValid =
      is_m (PathsFrom.manifestFromDir is_m st).mf ∧
    (PathsFrom.manifestFromDir is_m st).dir = st.dir ∧
    (PathsFrom.manifestFromDir is_m st).dirValid = st.dirValid ∧
    (st.mfValid = true → (PathsFrom.manifestFromDir is_m st).mfValid = true) := by
  unfold PathsFrom.manifestFromDir
  dsimp only
  split
  · split <;> simp_all
  · simp_all

/-- The third block keeps the manifest and its flag, never clears the
directory flag, and leaves it equal to the verdict on the directory path. -/
theorem PathsFrom.dirFromManifest_flags (is_d : Str → Bool) (st : PathsState)
    (h : st.dirValid = is_d st.dir) :
    (PathsFrom.dirFromManifest is_d st).dirValid =
      is_d (PathsFrom.dirFromManifest is_d st).dir ∧
    (PathsFrom.dirFromManifest is_d st).mf = st.mf ∧
    (PathsFrom.dirFromManifest is_d st).mfValid = st.mfValid ∧
    (st.dirValid = true → (PathsFrom.dirFromManifest is_d st).dirValid = true) := by
  unfold PathsFrom.dirFromManifest
  dsimp only
  split <;> simp_all

/-- A successful run returns the paths of the final state whose flags are set;
each set flag is the verdict of its predicate, and one of the flags is set. -/
theorem PathsFrom_final (argv0 mf dir : Str) (is_m is_d : Str → Bool)
    (hret : (PathsFrom argv0 mf dir is_m is_d).ret = true) :
    PathsFrom argv0 mf dir is_m is_d =
      { ret := true,
        out_manifest :=
          if (PathsFrom.finalState argv0 mf dir is_m is_d).mfValid then
            (PathsFrom.finalState argv0 mf dir is_m is_d).mf
          else [],
        out_directory :=
          if (PathsFrom.finalState argv0 mf dir is_m is_d).dirValid then
            (PathsFrom.finalState argv0 mf dir is_m is_d).dir
          else [] } ∧
    ((PathsFrom.finalState argv0 mf dir is_m is_d).mfValid = true ∨
      (PathsFrom.finalState argv0 mf dir is_m is_d).dirValid = true) ∧
    (PathsFrom.finalState argv0 mf dir is_m is_d).mfValid =
      is_m (PathsFrom.finalState argv0 mf dir is_m is_d).mf ∧
    (PathsFrom.finalState argv0 mf dir is_m is_d).dirValid =
      is_d (PathsFrom.finalState argv0 mf dir is_m is_d).dir := by
  obtain ⟨f1, f2⟩ := PathsFrom.fromArgv0_flags argv0 mf dir is_m is_d
  revert hret
  unfold PathsFrom PathsFrom.finalState
  dsimp only
  generalize PathsFrom.fromArgv0 argv0 is_m is_d
    { mf := mf, dir := dir, mfValid := is_m mf, dirValid := is_d dir } = st1 at f1 f2 ⊢
  obtain ⟨g1, g2, g3, g4⟩ := PathsFrom.manifestFromDir_flags is_m st1 f1
  have f2' : (PathsFrom.manifestFromDir is_m st1).dirValid =
      is_d (PathsFrom.manifestFromDir is_m st1).dir := by rw [g2, g3]; exact f2
  obtain ⟨k1, k2, k3, k4⟩ :=
    PathsFrom.dirFromManifest_flags is_d (PathsFrom.manifestFromDir is_m st1) f2'
  intro hret
  have hv : st1.mfValid = true ∨ st1.dirValid = true := by
    cases h1 : st1.mfValid <;> cases h2 : st1.dirValid <;> simp [h1, h2] at hret ⊢
  have hif : (!st1.mfValid && !st1.dirValid) = false := by
    rcases hv with h | h <;> simp [h]
  refine ⟨by simp [hif], ?_, ?_, k1⟩
  · rcases hv with h | h
    · exact Or.inl (by rw [k3]; exact g4 h)
    · exact Or.inr (k4 (by rw [g3]; exact h))
  · rw [k3, k2]; exact g1

/-- The outputs of a successful run: each one is empty or validated, and when
the predicates reject the empty string one of them is not empty. -/
theorem PathsFrom_outputs (argv0 mf dir : Str) (is_m is_d : Str → Bool)
    (hret : (PathsFrom argv0 mf dir is_m is_d).ret = true) :
    ((PathsFrom argv0 mf dir is_m is_d).out_manifest = [] ∨
      is_m (PathsFrom argv0 mf dir is_m is_d).out_manifest = true) ∧
    ((PathsFrom argv0 mf dir is_m is_d).out_directory = [] ∨
      is_d (PathsFrom argv0 mf dir is_m is_d).out_directory = true) ∧
    (is_m [] = false → is_d [] = false →
      (PathsFrom argv0 mf dir is_m is_d).out_manifest ≠ [] ∨
        (PathsFrom argv0 mf dir is_m is_d).out_directory ≠ []) := by
  obtain ⟨h1, h2, h3, h4⟩ := PathsFrom_final argv0 mf dir is_m is_d hret
  rw [h1]
  dsimp only
  refine ⟨?_, ?_, ?_⟩
  · cases hv : (PathsFrom.finalState argv0 mf dir is_m is_d).mfValid with
    | true => right; rw [if_pos rfl, ← h3]; exact hv
    | false => left; simp
  · cases hv : (PathsFrom.finalState argv0 mf dir is_m is_d).dirValid with
    | true => right; rw [if_pos rfl, ← h4]; exact hv
    | false => left; simp
  · intro hem hed
    rcases h2 with hv | hv
    · left
      rw [hv, if_pos rfl]
      intro he
      rw [h3, he, hem] at hv
      cases hv
    · right
      rw [hv, if_pos rfl]
      intro he
      rw [h4, he, hed] at hv
      cases hv

/-- C19: whenever `PathsFrom` returns true, each output is empty or satisfies
its predicate, the outputs are the paths of the final state whose validity
flags are set, at least one flag is set, and when both predicates reject the
empty string at least one output is not empty. -/
theorem PathsFrom_postcondition (argv0 mf dir : Str) (is_m is_d : Str → Bool)
    (hret : (PathsFrom argv0 mf dir is_m is_d).ret = true) :
    ((PathsFrom argv0 mf dir is_m is_d).out_manifest = [] ∨
      is_m (PathsFrom argv0 mf dir is_m is_d).out_manifest = true) ∧
    ((PathsFrom argv0 mf dir is_m is_d).out_directory = [] ∨
      is_d (PathsFrom argv0 mf dir is_m is_d).out_directory = true) ∧
    ((PathsFrom.finalState argv0 mf dir is_m is_d).mfValid = true ∨
      (PathsFrom.finalState argv0 mf dir is_m is_d).dirValid = true) ∧
    (PathsFrom argv0 mf dir is_m is_d).out_manifest =
      (if (PathsFrom.finalState argv0 mf dir is_m is_d).mfValid then
        (PathsFrom.finalState argv0 mf dir is_m is_d).mf
      else []) ∧
    (PathsFrom argv0 mf dir is_m is_d).out_directory =
      (if (PathsFrom.finalState argv0 mf dir is_m is_d).dirValid then
        (PathsFrom.finalState argv0 mf dir is_m is_d).dir
      else []) ∧
    (is_m [] = false → is_d [] = false →
      (PathsFrom argv0 mf dir is_m is_d).out_manifest ≠ [] ∨
        (PathsFrom argv0 mf dir is_m is_d).out_directory ≠ []) := by
  obtain ⟨h1, h2, _, _⟩ := PathsFrom_final argv0 mf dir is_m is_d hret
  obtain ⟨o1, o2, o3⟩ := PathsFrom_outputs argv0 mf dir is_m is_d hret
  refine ⟨o1, o2, h2, ?_, ?_, o3⟩
  · rw [h1]
  · rw [h1]

/-- Witness of C19 at the launch path "x", where only the directory
"x.runfiles" validates. -/
theorem PathsFrom_postcondition_witness :
    (PathsFrom "x".toList [] [] (fun _ => false) (fun p => p == "x.runfiles".toList)).ret =
      true ∧
    (PathsFrom "x".toList [] [] (fun _ => false)
      (fun p => p == "x.runfiles".toList)).out_directory ≠ [] :=
  ⟨by decide,
    ((PathsFrom_postcondition "x".toList [] [] (fun _ => false)
      (fun p => p == "x.runfiles".toList) (by decide)).2.2.2.2.2 (by decide)
      (by decide)).resolve_left (by decide)⟩

/-! ## The constructor -/

/-- A successful construction: the locator succeeded, the directory and the
exported variables are its outputs, and the index is empty without a manifest
and the parsed manifest otherwise. -/
theorem Create_ok (FILE : Str) (fs : FileSystem) (fuel : Nat) (argv0 : Str)
    (env_lookup : Str → Str) (r : RunfilesImpl)
    (h : RunfilesImpl.Create FILE fs fuel argv0 env_lookup = some (Except.ok r)) :
    (PathsFrom argv0 (env_lookup "RUNFILES_MANIFEST_FILE".toList)
      (env_lookup "RUNFILES_DIR".toList) (Create.is_runfiles_manifest fs)
      (Create.is_runfiles_directory fs)).ret = true ∧
    r.directory_ = (PathsFrom argv0 (env_lookup "RUNFILES_MANIFEST_FILE".toList)
      (env_lookup "RUNFILES_DIR".toList) (Create.is_runfiles_manifest fs)
      (Create.is_runfiles_directory fs)).out_directory ∧
    r.envvars_ =
      [("RUNFILES_MANIFEST_FILE".toList,
          (PathsFrom argv0 (env_lookup "RUNFILES_MANIFEST_FILE".toList)
            (env_lookup "RUNFILES_DIR".toList) (Create.is_runfiles_manifest fs)
            (Create.is_runfiles_directory fs)).out_manifest),
        ("RUNFILES_DIR".toList, r.directory_), ("JAVA_RUNFILES".toList, r.directory_)] ∧
    (((PathsFrom argv0 (env_lookup "RUNFILES_MANIFEST_FILE".toList)
        (env_lookup "RUNFILES_DIR".toList) (Create.is_runfiles_manifest fs)
        (Create.is_runfiles_directory fs)).out_manifest = [] ∧ r.runfiles_map_ = []) ∨
      ((PathsFrom argv0 (env_lookup "RUNFILES_MANIFEST_FILE".toList)
        (env_lookup "RUNFILES_DIR".toList) (Create.is_runfiles_manifest fs)
        (Create.is_runfiles_directory fs)).out_manifest ≠ [] ∧
       ParseManifest FILE fs fuel
        (PathsFrom argv0 (env_lookup "RUNFILES_MANIFEST_FILE".toList)
          (env_lookup "RUNFILES_DIR".toList) (Create.is_runfiles_manifest fs)
          (Create.is_runfiles_directory fs)).out_manifest [] =
        some (Except.ok r.runfiles_map_))) := by
  unfold RunfilesImpl.Create at h
  dsimp only at h
  generalize PathsFrom argv0 (env_lookup "RUNFILES_MANIFEST_FILE".toList)
    (env_lookup "RUNFILES_DIR".toList) (Create.is_runfiles_manifest fs)
    (Create.is_runfiles_directory fs) = paths at h ⊢
  cases hret : paths.ret with
  | false => simp [hret] at h
  | true =>
    simp only [hret, Bool.not_true, Bool.false_eq_true, if_false] at h
    cases hm : paths.out_manifest with
    | nil =>
      simp only [hm, List.isEmpty_nil, Bool.not_true, Bool.false_eq_true, if_false,
        Option.some.injEq, Except.ok.injEq] at h
      subst h
      exact ⟨rfl, rfl, rfl, Or.inl ⟨rfl, rfl⟩⟩
    | cons c t =>
      simp only [hm, List.isEmpty_cons, Bool.not_false, if_true] at h
      cases hp : ParseManifest FILE fs fuel (c :: t) [] with
      | none => simp [hp] at h
      | some res =>
        cases res with
        | error e => simp [hp] at h
        | ok runfiles =>
          simp only [hp, Option.some.injEq, Except.ok.injEq] at h
          subst h
          exact ⟨rfl, rfl, rfl, Or.inr ⟨by simp, rfl⟩⟩

/-- C14: after a successful construction `EnvVars()` is the three pairs
`RUNFILES_MANIFEST_FILE`, `RUNFILES_DIR`, `JAVA_RUNFILES`, in this order, with
the outputs of `PathsFrom` as values, and the directory of the resolver is the
directory output. -/
theorem Create_EnvVars (FILE : Str) (fs : FileSystem) (fuel : Nat) (argv0 : Str)
    (env_lookup : Str → Str) (r : RunfilesImpl)
    (h : RunfilesImpl.Create FILE fs fuel argv0 env_lookup = some (Except.ok r)) :
    r.envvars_ =
      [("RUNFILES_MANIFEST_FILE".toList,
          (PathsFrom argv0 (env_lookup "RUNFILES_MANIFEST_FILE".toList)
            (env_lookup "RUNFILES_DIR".toList) (Create.is_runfiles_manifest fs)
            (Create.is_runfiles_directory fs)).out_manifest),
        ("RUNFILES_DIR".toList,
          (PathsFrom argv0 (env_lookup "RUNFILES_MANIFEST_FILE".toList)
            (env_lookup "RUNFILES_DIR".toList) (Create.is_runfiles_manifest fs)
            (Create.is_runfiles_directory fs)).out_directory),
        ("JAVA_RUNFILES".toList,
          (PathsFrom argv0 (env_lookup "RUNFILES_MANIFEST_FILE".toList)
            (env_lookup "RUNFILES_DIR".toList) (Create.is_runfiles_manifest fs)
            (Create.is_runfiles_directory fs)).out_directory)] ∧
    r.directory_ =
      (PathsFrom argv0 (env_lookup "RUNFILES_MANIFEST_FILE".toList)
        (env_lookup "RUNFILES_DIR".toList) (Create.is_runfiles_manifest fs)
        (Create.is_runfiles_directory fs)).out_directory := by
  obtain ⟨_, h2, h3, _⟩ := Create_ok FILE fs fuel argv0 env_lookup r h
  rw [h3, h2]
  exact ⟨rfl, rfl⟩

/-- Witness of C14: the launch path "x" with the directory "x.runfiles" and the
manifest "x.runfiles/MANIFEST" that holds the line "a/b /data/a/b". -/
theorem Create_EnvVars_witness :
    (RunfilesImpl.mk [("a/b".toList, "/data/a/b".toList)] "x.runfiles".toList
      [("RUNFILES_MANIFEST_FILE".toList, "x.runfiles/MANIFEST".toList),
        ("RUNFILES_DIR".toList, "x.runfiles".toList),
        ("JAVA_RUNFILES".toList, "x.runfiles".toList)]).directory_ =
      (PathsFrom "x".toList [] [] (Create.is_runfiles_manifest runfilesTreeFs)
        (Create.is_runfiles_directory runfilesTreeFs)).out_directory :=
  (Create_EnvVars "runfiles.cc".toList runfilesTreeFs 1 "x".toList (fun _ => [])
    (RunfilesImpl.mk [("a/b".toList, "/data/a/b".toList)] "x.runfiles".toList
      [("RUNFILES_MANIFEST_FILE".toList, "x.runfiles/MANIFEST".toList),
        ("RUNFILES_DIR".toList, "x.runfiles".toList),
        ("JAVA_RUNFILES".toList, "x.runfiles".toList)])
    (by rfl)).2

/-- One body of the parser loop on a line with a space, of a size that a
`size_t` holds: the entry is assigned and the next line is read. -/
theorem ParseManifest.loop_step (FILE path : Str) (cur : Str) (f cnt : Nat) (m : StrMap)
    (stm : IfStream) (hsp : ' ' ∈ cur) (hsz : cur.length < sizeMod) :
    ParseManifest.loop FILE path (f + 1) stm cur cnt m =
      ParseManifest.loop FILE path f (getline stm cur).1 (getline stm cur).2 (sizeSucc cnt)
        (m.assign (keyOf cur) (valueOf cur)) := by
  obtain ⟨i, h1, h2, h3, h4⟩ := charPos?_of_mem ' ' cur hsp
  have he : cur.isEmpty = false := by
    cases cur with
    | nil => simp at hsp
    | cons c t => rfl
  have hidx : find_first_of cur ' ' = i := by simp [find_first_of, h1]
  have hnp : (i == npos) = false := by
    rw [beq_eq_false_iff_ne]
    unfold npos
    omega
  have hk : substr cur 0 i = keyOf cur := by simp [substr, keyOf, h3]
  have hv : substr cur (i + 1) npos = valueOf cur := by
    unfold substr valueOf
    rw [← h4]
    apply List.take_of_length_le
    rw [List.length_drop]
    unfold npos
    omega
  rw [ParseManifest.loop]
  simp only [he, hidx, hnp, hk, hv, Bool.false_eq_true, if_false]

/-- The character search finds nothing in a string without the character. -/
theorem charPos?_eq_none (c : Char) (l : Str) (h : c ∉ l) : charPos? c l = none := by
  induction l with
  | nil => rfl
  | cons d t ih =>
    have hd : d ≠ c := fun e => h (by simp [e])
    have ht : c ∉ t := fun e => h (List.mem_cons_of_mem _ e)
    simp [charPos?, hd, ih ht]

/-- One body of the parser loop on a non-empty line without a space: the error
with the current line number. -/
theorem ParseManifest.loop_bad (FILE path : Str) (cur : Str) (f cnt : Nat) (m : StrMap)
    (stm : IfStream) (hne : cur ≠ []) (hsp : ' ' ∉ cur) :
    ParseManifest.loop FILE path (f + 1) stm cur cnt m =
      some (Except.error (badEntryMessage FILE path cnt cur)) := by
  have he : cur.isEmpty = false := by
    cases cur with
    | nil => exact absurd rfl hne
    | cons c t => rfl
  have hidx : find_first_of cur ' ' = npos := by
    simp [find_first_of, charPos?_eq_none ' ' cur hsp]
  rw [ParseManifest.loop]
  simp [he, hidx]

/-- On an empty line the parser loop returns the map, whatever the fuel. -/
theorem ParseManifest.loop_nil (FILE path : Str) (fuel cnt : Nat) (m : StrMap)
    (stm : IfStream) :
    ParseManifest.loop FILE path fuel stm [] cnt m = some (Except.ok m) := by
  rw [ParseManifest.loop.eq_def]
  simp

/-- The parser loop does not see what follows an empty line: the text of some
lines followed by an empty line and any further text is parsed like the text
of the lines alone. -/
theorem ParseManifest.loop_blank (FILE path : Str) (P : List Str) (R : Str)
    (hP : ∀ l ∈ P, '\n' ∉ l) (fuel : Nat) (cur : Str) (cnt : Nat) (m : StrMap) :
    ParseManifest.loop FILE path fuel
        { buf := manifestText P ++ '\n' :: R, eofbit := false, failbit := false } cur cnt m =
      ParseManifest.loop FILE path fuel
        { buf := manifestText P, eofbit := false, failbit := false } cur cnt m := by
  induction P generalizing fuel cur cnt m with
  | nil =>
    cases fuel with
    | zero =>
      rw [ParseManifest.loop.eq_def]
      conv_rhs => rw [ParseManifest.loop.eq_def]
    | succ f =>
      rw [ParseManifest.loop]
      conv_rhs => rw [ParseManifest.loop]
      have e1 : (getline (IfStream.mk (manifestText [] ++ '\n' :: R) false false) cur).2
          = [] := by
        simp [getline, IfStream.good, manifestText, splitLine]
      have e2 : (getline { buf := manifestText [], eofbit := false, failbit := false } cur).2
          = [] := by
        simp [getline, IfStream.good, manifestText, splitLine]
      simp only [e1, e2, ParseManifest.loop_nil]
  | cons l P ih =>
    have hl : '\n' ∉ l := hP l (List.mem_cons_self _ _)
    have hP' : ∀ x ∈ P, '\n' ∉ x := fun x hx => hP x (List.mem_cons_of_mem _ hx)
    cases fuel with
    | zero =>
      rw [ParseManifest.loop.eq_def]
      conv_rhs => rw [ParseManifest.loop.eq_def]
    | succ f =>
      rw [ParseManifest.loop]
      conv_rhs => rw [ParseManifest.loop]
      have e2 : manifestText (l :: P) = l ++ '\n' :: manifestText P := rfl
      simp only [e2, List.append_assoc, List.cons_append, getline_line l _ cur hl, ih hP']

/-- On the text of newline-terminated lines the parser loop finishes once the
fuel exceeds the number of lines. -/
theorem ParseManifest.loop_finishes (FILE path : Str) (P : List Str)
    (hP : ∀ l ∈ P, '\n' ∉ l) (fuel : Nat) (cur : Str) (cnt : Nat) (m : StrMap)
    (hfuel : P.length < fuel) :
    (ParseManifest.loop FILE path fuel
      { buf := manifestText P, eofbit := false, failbit := false } cur cnt m).isSome = true := by
  induction P generalizing fuel cur cnt m with
  | nil =>
    cases fuel with
    | zero => simp at hfuel
    | succ f =>
      rw [ParseManifest.loop]
      have e2 : (getline { buf := manifestText [], eofbit := false, failbit := false } cur).2
          = [] := by
        simp [getline, IfStream.good, manifestText, splitLine]
      simp only [e2, ParseManifest.loop_nil]
      split
      · rfl
      · split <;> rfl
  | cons l P ih =>
    have hl : '\n' ∉ l := hP l (List.mem_cons_self _ _)
    have hP' : ∀ x ∈ P, '\n' ∉ x := fun x hx => hP x (List.mem_cons_of_mem _ hx)
    cases fuel with
    | zero => simp at hfuel
    | succ f =>
      rw [ParseManifest.loop]
      have e2 : manifestText (l :: P) = l ++ '\n' :: manifestText P := rfl
      simp only [e2, getline_line l _ cur hl]
      split
      · rfl
      · split
        · rfl
        · exact ih hP' f _ _ _ (by simp at hfuel; omega)

/-- C12: for lines `P` and any text `R`, parsing the manifest `P`, an empty
line, `R` gives the same outcome as parsing the manifest `P` alone, and that
outcome is reached within one loop body per line of `P`. -/
theorem ParseManifest_blank_line_truncates (FILE : Str) (fs1 fs2 : FileSystem) (path : Str)
    (P : List Str) (R : Str) (m : StrMap) (hP : ∀ l ∈ P, l ≠ [] ∧ '\n' ∉ l)
    (h1 : fs1.file path = some (manifestText P ++ '\n' :: R))
    (h2 : fs2.file path = some (manifestText P)) :
    (∀ fuel, ParseManifest FILE fs1 fuel path m = ParseManifest FILE fs2 fuel path m) ∧
    (∀ fuel, P.length ≤ fuel → (ParseManifest FILE fs2 fuel path m).isSome = true) := by
  unfold ParseManifest
  rw [h1, h2]
  cases P with
  | nil =>
    have e1 : (getline (IfStream.mk (manifestText [] ++ '\n' :: R) false false) []).2
        = [] := by
      simp [getline, IfStream.good, manifestText, splitLine]
    have e2 : (getline { buf := manifestText [], eofbit := false, failbit := false } []).2
        = [] := by
      simp [getline, IfStream.good, manifestText, splitLine]
    simp only [e1, e2, ParseManifest.loop_nil]
    simp
  | cons l P =>
    have hl : '\n' ∉ l := (hP l (List.mem_cons_self _ _)).2
    have hP' : ∀ x ∈ P, '\n' ∉ x := fun x hx => (hP x (List.mem_cons_of_mem _ hx)).2
    have e2 : manifestText (l :: P) = l ++ '\n' :: manifestText P := rfl
    simp only [e2, List.append_assoc, List.cons_append, getline_line l _ [] hl]
    exact ⟨fun fuel => ParseManifest.loop_blank FILE path P R hP' fuel l 1 m,
      fun fuel hf => ParseManifest.loop_finishes FILE path P hP' fuel l 1 m
        (by simp at hf; omega)⟩

/-- Witness of C12: after the line "a b" and an empty line, the spaceless line
"junk" is not parsed. -/
theorem ParseManifest_blank_line_truncates_witness :
    (∀ fuel, ParseManifest [] (singleTextFs "a b\n\njunk\n".toList) fuel [] [] =
      ParseManifest [] (singleTextFs "a b\n".toList) fuel [] []) ∧
    (∀ fuel, 1 ≤ fuel →
      (ParseManifest [] (singleTextFs "a b\n".toList) fuel [] []).isSome = true) :=
  ParseManifest_blank_line_truncates [] (singleTextFs "a b\n\njunk\n".toList)
    (singleTextFs "a b\n".toList) [] ["a b".toList] "junk\n".toList []
    (by intro l hl; rw [List.mem_singleton] at hl; subst hl; decide) rfl rfl

/-! ## The manifest parser: failure -/

/-- The first line of a text and the lines of what follows its newline. -/
theorem textLines_of_splitLine (b : Str) :
    (∀ pre rest, splitLine b = (pre, some rest) → textLines b = pre :: textLines rest) ∧
    (∀ pre, splitLine b = (pre, none) → textLines b = [pre]) := by
  induction b with
  | nil =>
    constructor
    · intro pre rest h
      simp [splitLine] at h
    · intro pre h
      simp only [splitLine, Prod.mk.injEq] at h
      rw [← h.1]
      rfl
  | cons c t ih =>
    by_cases hc : c = '\n'
    · constructor
      · intro pre rest h
        simp only [splitLine, hc, if_true, Prod.mk.injEq, Option.some.injEq] at h
        simp only [textLines, hc, if_true]
        rw [← h.1, ← h.2]
      · intro pre h
        simp [splitLine, hc] at h
    · constructor
      · intro pre rest h
        simp only [splitLine, hc, if_false, Prod.mk.injEq] at h
        have h1 := ih.1 (splitLine t).1 rest (Prod.ext rfl h.2)
        simp only [textLines, hc, if_false, h1]
        rw [← h.1]
      · intro pre h
        simp only [splitLine, hc, if_false, Prod.mk.injEq] at h
        have h1 := ih.2 (splitLine t).1 (Prod.ext rfl h.2)
        simp only [textLines, hc, if_false, h1]
        rw [← h.1]

/-- A text has at least one line. -/
theorem textLines_ne_nil (b : Str) : textLines b ≠ [] := by
  cases b with
  | nil => simp [textLines]
  | cons c t =>
    by_cases hc : c = '\n'
    · simp [textLines, hc]
    · simp only [textLines, hc, if_false]
      cases textLines t <;> simp

/-- A text has at most one line more than it has characters, and none of its
lines is longer than the text. -/
theorem textLines_size (b : Str) :
    (textLines b).length ≤ b.length + 1 ∧ ∀ l ∈ textLines b, l.length ≤ b.length := by
  induction b with
  | nil => simp [textLines]
  | cons c t ih =>
    obtain ⟨ih1, ih2⟩ := ih
    by_cases hc : c = '\n'
    · simp only [textLines, hc, if_true, List.length_cons, List.mem_cons]
      refine ⟨by omega, ?_⟩
      rintro l (h | h)
      · subst h; simp
      · have := ih2 l h; omega
    · simp only [textLines, hc, if_false]
      cases hl : textLines t with
      | nil => simp
      | cons l r =>
        rw [hl] at ih1 ih2
        simp only [List.length_cons, List.mem_cons] at ih1 ih2 ⊢
        refine ⟨by omega, ?_⟩
        rintro x (h | h)
        · subst h
          have := ih2 l (Or.inl rfl)
          simp only [List.length_cons]
          omega
        · have := ih2 x (Or.inr h)
          omega

/-- A call of `getline` yields the first pending line, or leaves the line as it
is when none is pending, and the rest of the lines stays pending. -/
theorem getline_pending (stm : IfStream) (cur : Str) :
    (getline stm cur).2 = (pending stm).headD cur ∧
    pending (getline stm cur).1 = (pending stm).tail := by
  unfold getline pending
  cases hg : stm.good with
  | false => simp [IfStream.good]
  | true =>
    simp only [Bool.not_true, Bool.false_eq_true, if_false, if_true]
    obtain ⟨t1, t2⟩ := textLines_of_splitLine stm.buf
    cases hs : splitLine stm.buf with
    | mk pre o =>
      cases o with
      | none =>
        rw [t2 pre hs]
        simp [IfStream.good]
      | some rest =>
        rw [t1 pre rest hs]
        have hg' : IfStream.good { stm with buf := rest } = true := hg
        simp only [hg', if_true]
        simp

/-- The parser starts its loop on the first line of the text, with the other
lines pending and the line count 1. -/
theorem ParseManifest_start (FILE : Str) (fs : FileSystem) (fuel : Nat) (path text : Str)
    (m : StrMap) (hfile : fs.file path = some text) :
    ∃ stm cur, ParseManifest FILE fs fuel path m = ParseManifest.loop FILE path fuel stm cur 1 m ∧
      cur :: pending stm = textLines text := by
  refine ⟨(getline (IfStream.mk text false false) []).1,
    (getline (IfStream.mk text false false) []).2, ?_, ?_⟩
  · unfold ParseManifest
    rw [hfile]
  · obtain ⟨g1, g2⟩ := getline_pending (IfStream.mk text false false) []
    rw [g1, g2]
    have hp : pending (IfStream.mk text false false) = textLines text := by
      simp [pending, IfStream.good]
    rw [hp]
    cases ht : textLines text with
    | nil => exact absurd ht (textLines_ne_nil text)
    | cons l r => rfl

/-- An error of the parser loop comes from a non-empty line without a space
that only non-empty lines with a space precede. -/
theorem ParseManifest.loop_error_sound (FILE path : Str) (fuel : Nat) (stm : IfStream)
    (cur : Str) (cnt : Nat) (m : StrMap) (e : Str)
    (hsz : ∀ l ∈ cur :: pending stm, l.length < sizeMod)
    (h : ParseManifest.loop FILE path fuel stm cur cnt m = some (Except.error e)) :
    ∃ pre l post, cur :: pending stm = pre ++ l :: post ∧
      (∀ x ∈ pre, x ≠ [] ∧ ' ' ∈ x) ∧ l ≠ [] ∧ ' ' ∉ l := by
  induction fuel generalizing stm cur cnt m with
  | zero =>
    rw [ParseManifest.loop.eq_def] at h
    cases cur with
    | nil => simp at h
    | cons c t => simp at h
  | succ f ih =>
    by_cases hne : cur = []
    · subst hne
      rw [ParseManifest.loop_nil] at h
      simp at h
    · by_cases hsp : ' ' ∈ cur
      · rw [ParseManifest.loop_step FILE path cur f cnt m stm hsp
          (hsz cur (List.mem_cons_self _ _))] at h
        obtain ⟨g1, g2⟩ := getline_pending stm cur
        have hsz' : ∀ l ∈ (getline stm cur).2 :: pending (getline stm cur).1,
            l.length < sizeMod := by
          rw [g1, g2]
          intro l hl
          cases hp : pending stm with
          | nil =>
            rw [hp] at hl
            simp only [List.headD_nil, List.tail_nil, List.mem_singleton] at hl
            rw [hl]
            exact hsz cur (List.mem_cons_self _ _)
          | cons p ps =>
            rw [hp] at hl
            simp only [List.headD_cons, List.tail_cons] at hl
            exact hsz l (by rw [hp]; exact List.mem_cons_of_mem _ hl)
        obtain ⟨pre, l, post, hdec, hpre, hl1, hl2⟩ := ih _ _ _ _ hsz' h
        rw [g1, g2] at hdec
        cases hp : pending stm with
        | nil =>
          rw [hp] at hdec
          simp only [List.headD_nil, List.tail_nil] at hdec
          cases pre with
          | nil =>
            simp only [List.nil_append, List.cons.injEq] at hdec
            rw [← hdec.1] at hl2
            exact absurd hsp hl2
          | cons x pre' => simp at hdec
        | cons p ps =>
          rw [hp] at hdec
          simp only [List.headD_cons, List.tail_cons] at hdec
          refine ⟨cur :: pre, l, post, by rw [hdec]; rfl, ?_, hl1, hl2⟩
          intro x hx
          rcases List.mem_cons.mp hx with hx | hx
          · rw [hx]; exact ⟨hne, hsp⟩
          · exact hpre x hx
      · exact ⟨[], cur, pending stm, rfl, by simp, hne, hsp⟩

/-- The parser loop reports the first non-empty line without a space, with its
line number, once the fuel exceeds the number of lines before it. -/
theorem ParseManifest.loop_error_complete (FILE path : Str) (pre : List Str) (l : Str)
    (post : List Str) (fuel : Nat) (stm : IfStream) (cur : Str) (cnt : Nat) (m : StrMap)
    (hdec : cur :: pending stm = pre ++ l :: post)
    (hpre : ∀ x ∈ pre, x ≠ [] ∧ ' ' ∈ x) (hne : l ≠ []) (hsp : ' ' ∉ l)
    (hsz : ∀ x ∈ pre, x.length < sizeMod) (hcnt : cnt + pre.length < sizeMod)
    (hfuel : pre.length < fuel) :
    ParseManifest.loop FILE path fuel stm cur cnt m =
      some (Except.error (badEntryMessage FILE path (cnt + pre.length) l)) := by
  induction pre generalizing fuel stm cur cnt m with
  | nil =>
    simp only [List.nil_append, List.cons.injEq] at hdec
    cases fuel with
    | zero => simp at hfuel
    | succ f =>
      rw [hdec.1]
      exact ParseManifest.loop_bad FILE path l f cnt m stm hne hsp
  | cons x pre ih =>
    simp only [List.cons_append, List.cons.injEq] at hdec
    obtain ⟨hx, hp⟩ := hdec
    subst hx
    cases fuel with
    | zero => simp at hfuel
    | succ f =>
      simp only [List.length_cons] at hcnt hfuel
      rw [ParseManifest.loop_step FILE path cur f cnt m stm
        (hpre cur (List.mem_cons_self _ _)).2 (hsz cur (List.mem_cons_self _ _))]
      obtain ⟨g1, g2⟩ := getline_pending stm cur
      have hdec' : (getline stm cur).2 :: pending (getline stm cur).1 = pre ++ l :: post := by
        rw [g1, g2, hp]
        cases pre <;> rfl
      have hs : sizeSucc cnt = cnt + 1 := Nat.mod_eq_of_lt (by omega)
      rw [ih f _ _ (sizeSucc cnt) _ hdec' (fun y hy => hpre y (List.mem_cons_of_mem _ hy))
        (fun y hy => hsz y (List.mem_cons_of_mem _ hy)) (by rw [hs]; omega) (by omega), hs]
      simp only [List.length_cons]
      have : cnt + 1 + pre.length = cnt + (pre.length + 1) := by omega
      rw [this]

/-- Some line before the first empty line has no space exactly when a
non-empty line without a space follows only non-empty lines with a space. -/
theorem exists_spaceless_iff (ls : List Str) :
    (∃ l ∈ ls.takeWhile (fun l => !l.isEmpty), ' ' ∉ l) ↔
      ∃ pre l post, ls = pre ++ l :: post ∧ (∀ x ∈ pre, x ≠ [] ∧ ' ' ∈ x) ∧
        l ≠ [] ∧ ' ' ∉ l := by
  constructor
  · induction ls with
    | nil => simp
    | cons x rest ih =>
      rintro ⟨l, hl, hsp⟩
      by_cases hx : x = []
      · subst hx
        simp at hl
      · have hxe : (!x.isEmpty) = true := by
          cases x with
          | nil => exact absurd rfl hx
          | cons c t => rfl
        rw [List.takeWhile_cons, hxe] at hl
        by_cases hxs : ' ' ∈ x
        · have hl' : l ∈ rest.takeWhile (fun l => !l.isEmpty) := by
            rcases List.mem_cons.mp hl with h | h
            · rw [h] at hsp; exact absurd hxs hsp
            · exact h
          obtain ⟨pre, l', post, hdec, hpre, h1, h2⟩ := ih ⟨l, hl', hsp⟩
          refine ⟨x :: pre, l', post, by rw [hdec]; rfl, ?_, h1, h2⟩
          intro y hy
          rcases List.mem_cons.mp hy with hy | hy
          · rw [hy]; exact ⟨hx, hxs⟩
          · exact hpre y hy
        · exact ⟨[], x, rest, rfl, by simp, hx, hxs⟩
  · rintro ⟨pre, l, post, hdec, hpre, hne, hsp⟩
    refine ⟨l, ?_, hsp⟩
    subst hdec
    have hle : (!l.isEmpty) = true := by
      cases l with
      | nil => exact absurd rfl hne
      | cons c t => rfl
    induction pre with
    | nil =>
      rw [List.nil_append, List.takeWhile_cons, hle]
      exact List.mem_cons_self _ _
    | cons x pre ih =>
      have hx : (!x.isEmpty) = true := by
        have := (hpre x (List.mem_cons_self _ _)).1
        cases x with
        | nil => exact absurd rfl this
        | cons c t => rfl
      rw [List.cons_append, List.takeWhile_cons, hx]
      exact List.mem_cons_of_mem _ (ih (fun y hy => hpre y (List.mem_cons_of_mem _ hy)))

/-- The message for a bad entry contains the manifest path and the decimal
line number. -/
theorem badEntryMessage_contains (FILE path : Str) (n : Nat) (line : Str) :
    path <:+: badEntryMessage FILE path n line ∧
    decimal n <:+: badEntryMessage FILE path n line := by
  unfold badEntryMessage
  constructor
  · exact ⟨"ERROR: ".toList ++ FILE ++ "(".toList ++ decimal 230 ++
        "): bad runfiles manifest entry in \"".toList,
      "\" line #".toList ++ decimal n ++ ": \"".toList ++ line ++ "\"".toList,
      by simp only [List.append_assoc]⟩
  · exact ⟨"ERROR: ".toList ++ FILE ++ "(".toList ++ decimal 230 ++
        "): bad runfiles manifest entry in \"".toList ++ path ++ "\" line #".toList,
      ": \"".toList ++ line ++ "\"".toList,
      by simp only [List.append_assoc]⟩

/-- When the locator hands a non-empty manifest path to `Create` and parsing it
fails, `Create` returns no resolver and passes the message on. -/
theorem Create_of_parse_error (FILE : Str) (fs : FileSystem) (fuel : Nat) (argv0 : Str)
    (env_lookup : Str → Str) (path e : Str)
    (hret : (PathsFrom argv0 (env_lookup "RUNFILES_MANIFEST_FILE".toList)
      (env_lookup "RUNFILES_DIR".toList) (Create.is_runfiles_manifest fs)
      (Create.is_runfiles_directory fs)).ret = true)
    (hout : (PathsFrom argv0 (env_lookup "RUNFILES_MANIFEST_FILE".toList)
      (env_lookup "RUNFILES_DIR".toList) (Create.is_runfiles_manifest fs)
      (Create.is_runfiles_directory fs)).out_manifest = path)
    (hne : path ≠ [])
    (hparse : ParseManifest FILE fs fuel path [] = some (Except.error e)) :
    RunfilesImpl.Create FILE fs fuel argv0 env_lookup = some (Except.error e) := by
  unfold RunfilesImpl.Create
  dsimp only
  rw [hret, hout, hparse]
  cases path with
  | nil => exact absurd rfl hne
  | cons c t => rfl

/-- C11: for a manifest text, `ParseManifest` fails exactly when some line that
precedes the first empty line has no space; with enough fuel it then returns
the message of the first such line, which contains the manifest path and the
1-based number of that line, and `Create` returns no resolver. -/
theorem ParseManifest_fails_iff (FILE : Str) (fs : FileSystem) (path text : Str)
    (hfile : fs.file path = some text) (hsz : text.length < npos) :
    (∀ m, (∃ fuel e, ParseManifest FILE fs fuel path m = some (Except.error e)) ↔
      ∃ l ∈ linesBeforeBlank text, ' ' ∉ l) ∧
    (∀ pre l post, textLines text = pre ++ l :: post → (∀ x ∈ pre, x ≠ [] ∧ ' ' ∈ x) →
      l ≠ [] → ' ' ∉ l → ∀ fuel, pre.length < fuel →
        (∀ m, ParseManifest FILE fs fuel path m =
          some (Except.error (badEntryMessage FILE path (pre.length + 1) l))) ∧
        path <:+: badEntryMessage FILE path (pre.length + 1) l ∧
        decimal (pre.length + 1) <:+: badEntryMessage FILE path (pre.length + 1) l ∧
        ∀ argv0 env_lookup,
          (PathsFrom argv0 (env_lookup "RUNFILES_MANIFEST_FILE".toList)
            (env_lookup "RUNFILES_DIR".toList) (Create.is_runfiles_manifest fs)
            (Create.is_runfiles_directory fs)).ret = true →
          (PathsFrom argv0 (env_lookup "RUNFILES_MANIFEST_FILE".toList)
            (env_lookup "RUNFILES_DIR".toList) (Create.is_runfiles_manifest fs)
            (Create.is_runfiles_directory fs)).out_manifest = path →
          path ≠ [] →
          RunfilesImpl.Create FILE fs fuel argv0 env_lookup =
            some (Except.error (badEntryMessage FILE path (pre.length + 1) l))) := by
  obtain ⟨s1, s2⟩ := textLines_size text
  have hb : text.length + 1 < sizeMod := by
    unfold npos at hsz
    omega
  have hlines : ∀ l ∈ textLines text, l.length < sizeMod := by
    intro l hl
    have := s2 l hl
    omega
  have complete : ∀ pre l post, textLines text = pre ++ l :: post →
      (∀ x ∈ pre, x ≠ [] ∧ ' ' ∈ x) → l ≠ [] → ' ' ∉ l → ∀ fuel, pre.length < fuel →
      ∀ m, ParseManifest FILE fs fuel path m =
        some (Except.error (badEntryMessage FILE path (pre.length + 1) l)) := by
    intro pre l post hdec hpre hne hsp fuel hfuel m
    obtain ⟨stm, cur, hstart, hpend⟩ := ParseManifest_start FILE fs fuel path text m hfile
    have hlen : pre.length + 1 ≤ (textLines text).length := by
      rw [hdec]
      simp
    rw [hstart, ParseManifest.loop_error_complete FILE path pre l post fuel stm cur 1 m
      (hpend.trans hdec) hpre hne hsp
      (fun x hx => hlines x (by rw [hdec]; exact List.mem_append_left _ hx)) (by omega) hfuel,
      Nat.add_comm]
  refine ⟨?_, ?_⟩
  · intro m
    unfold linesBeforeBlank
    rw [exists_spaceless_iff]
    constructor
    · rintro ⟨fuel, e, h⟩
      obtain ⟨stm, cur, hstart, hpend⟩ := ParseManifest_start FILE fs fuel path text m hfile
      rw [hstart] at h
      rw [← hpend]
      exact ParseManifest.loop_error_sound FILE path fuel stm cur 1 m e
        (by rw [hpend]; exact hlines) h
    · rintro ⟨pre, l, post, hdec, hpre, hne, hsp⟩
      exact ⟨pre.length + 1, _,
        complete pre l post hdec hpre hne hsp (pre.length + 1) (Nat.lt_succ_self _) m⟩
  · intro pre l post hdec hpre hne hsp fuel hfuel
    obtain ⟨c1, c2⟩ := badEntryMessage_contains FILE path (pre.length + 1) l
    refine ⟨complete pre l post hdec hpre hne hsp fuel hfuel, c1, c2, ?_⟩
    intro argv0 env_lookup hret hout hp
    exact Create_of_parse_error FILE fs fuel argv0 env_lookup path _ hret hout hp
      (complete pre l post hdec hpre hne hsp fuel hfuel [])

/-- Witness of C11: a manifest whose lines 1 and 2 are well formed and whose
line 3 is "xyz" reports line 3. -/
theorem ParseManifest_fails_iff_witness :
    ParseManifest "runfiles.cc".toList (singleTextFs "a b\nc d\nxyz\n".toList) 3
        "MANIFEST".toList [] =
      some (Except.error (badEntryMessage "runfiles.cc".toList "MANIFEST".toList 3
        "xyz".toList)) ∧
    decimal 3 = "3".toList :=
  ⟨((ParseManifest_fails_iff "runfiles.cc".toList (singleTextFs "a b\nc d\nxyz\n".toList)
      "MANIFEST".toList "a b\nc d\nxyz\n".toList rfl (by decide)).2
      ["a b".toList, "c d".toList] "xyz".toList [[]] (by decide) (by decide) (by decide)
      (by decide) 3 (by decide)).1 [], by decide⟩

/-- With the stream no longer good, a non-empty line with a space is parsed
again and again: the loop does not finish, whatever the fuel.  This is the
state after reading a last line that no newline terminates. -/
theorem ParseManifest.loop_stuck (FILE path : Str) (stm : IfStream) (cur : Str)
    (hg : stm.good = false) (hsp : ' ' ∈ cur) (hsz : cur.length < sizeMod) (fuel cnt : Nat)
    (m : StrMap) :
    ParseManifest.loop FILE path fuel stm cur cnt m = none := by
  have hne : cur.isEmpty = false := by
    cases cur with
    | nil => simp at hsp
    | cons c t => rfl
  induction fuel generalizing stm cnt m with
  | zero =>
    rw [ParseManifest.loop.eq_def]
    simp [hne]
  | succ f ih =>
    rw [ParseManifest.loop_step FILE path cur f cnt m stm hsp hsz]
    have hgl : getline stm cur = ({ stm with failbit := true }, cur) := by
      unfold getline
      rw [hg]
      rfl
    rw [hgl]
    exact ih _ (by simp [IfStream.good]) _ _

/-- The manifest text "a b", whose only line no newline terminates, is never
parsed to the end. -/
theorem ParseManifest_unterminated (FILE path : Str) (fuel : Nat) (m : StrMap) :
    ParseManifest FILE (singleTextFs "a b".toList) fuel path m = none := by
  have h : ParseManifest FILE (singleTextFs "a b".toList) fuel path m =
      ParseManifest.loop FILE path fuel (IfStream.mk [] true false) "a b".toList 1 m := rfl
  rw [h]
  exact ParseManifest.loop_stuck FILE path (IfStream.mk [] true false) "a b".toList rfl
    (by decide) (by decide) fuel 1 m

/-- The helper `ends_with` for strings that a `size_t` measures: it accepts the
suffixes, and also every candidate one character longer than a non-empty
string, where `rfind` answers `npos` and the subtraction wraps to `npos`. -/
theorem ends_with_iff (s suffix : Str) (hs : s.length < sizeMod)
    (hsuf : suffix.length < sizeMod) :
    ends_with s suffix = true ↔
      suffix <:+ s ∨ (s ≠ [] ∧ suffix.length = s.length + 1) := by
  by_cases hle : suffix.length ≤ s.length
  · constructor
    · exact fun h => Or.inl (ends_with_imp_suffix s suffix hs hle h)
    · rintro (h | ⟨_, h⟩)
      · exact ends_with_of_suffix s suffix hs h
      · omega
  · have hnot : ¬ suffix <:+ s := fun h => hle h.length_le
    have hni : ¬ suffix <:+: s := fun h => hle h.length_le
    cases suffix with
    | nil => simp at hle
    | cons a p =>
      cases s with
      | nil => simp [ends_with]
      | cons c t =>
        have hr : rfind (c :: t) (a :: p) = npos := by
          simp [rfind, (rfindPos?_eq_none_iff _ _).mpr hni]
        have hsub : sizeSub (c :: t).length (a :: p).length =
            (c :: t).length + sizeMod - (a :: p).length := by
          unfold sizeSub
          rw [Nat.mod_eq_of_lt hsuf]
          exact Nat.mod_eq_of_lt (by omega)
        unfold ends_with
        simp only [List.isEmpty_cons, Bool.false_eq_true, if_false, hr, hsub, beq_iff_eq]
        unfold npos
        constructor
        · intro h
          exact Or.inr ⟨by simp, by omega⟩
        · rintro (h | ⟨_, h⟩)
          · exact absurd h hnot
          · omega

/-! ## The manifest round trip without a final newline -/

/-- C1: the manifest whose whole text is the line "a/b c:/data/a/b", with no
newline after it, is made only of a non-empty line with a space, and its key
"a/b" passes the validation of `Rlocation` and is not absolute; yet for every
fuel the parser loop is still running, in `ParseManifest` and so in `Create`:
no resolver is built that could answer `Rlocation("a/b")`. -/
theorem ParseManifest_unterminated_line :
    textLines "a/b c:/data/a/b".toList = ["a/b c:/data/a/b".toList] ∧
    keyOf "a/b c:/data/a/b".toList = "a/b".toList ∧
    RlocationRejects "a/b".toList = false ∧ IsAbsolute "a/b".toList = false ∧
    (∀ (FILE path : Str) (fuel : Nat) (m : StrMap),
      ParseManifest FILE (singleTextFs "a/b c:/data/a/b".toList) fuel path m = none) ∧
    (PathsFrom "x".toList [] [] (Create.is_runfiles_manifest unterminatedManifestFs)
        (Create.is_runfiles_directory unterminatedManifestFs) =
      { ret := true, out_manifest := "x.runfiles_manifest".toList, out_directory := [] }) ∧
    (∀ (FILE : Str) (fuel : Nat),
      RunfilesImpl.Create FILE unterminatedManifestFs fuel "x".toList (fun _ => []) = none) := by
  have stuck : ∀ (FILE path : Str) (fuel : Nat) (m : StrMap),
      ParseManifest.loop FILE path fuel (IfStream.mk [] true false) "a/b c:/data/a/b".toList
        1 m = none :=
    fun FILE path fuel m =>
      ParseManifest.loop_stuck FILE path (IfStream.mk [] true false) "a/b c:/data/a/b".toList
        rfl (by decide) (by decide) fuel 1 m
  refine ⟨by decide, by decide, by decide, by decide, ?_, by decide, ?_⟩
  · intro FILE path fuel m
    have h : ParseManifest FILE (singleTextFs "a/b c:/data/a/b".toList) fuel path m =
        ParseManifest.loop FILE path fuel (IfStream.mk [] true false)
          "a/b c:/data/a/b".toList 1 m := rfl
    rw [h]
    exact stuck FILE path fuel m
  · intro FILE fuel
    have hp : ParseManifest FILE unterminatedManifestFs fuel "x.runfiles_manifest".toList [] =
        none := by
      have h : ParseManifest FILE unterminatedManifestFs fuel "x.runfiles_manifest".toList [] =
          ParseManifest.loop FILE "x.runfiles_manifest".toList fuel (IfStream.mk [] true false)
            "a/b c:/data/a/b".toList 1 [] := rfl
      rw [h]
      exact stuck FILE _ fuel []
    have hP : PathsFrom "x".toList ((fun _ => []) "RUNFILES_MANIFEST_FILE".toList)
        ((fun _ => []) "RUNFILES_DIR".toList)
        (Create.is_runfiles_manifest unterminatedManifestFs)
        (Create.is_runfiles_directory unterminatedManifestFs) =
        { ret := true, out_manifest := "x.runfiles_manifest".toList, out_directory := [] } := by
      decide
    unfold RunfilesImpl.Create
    dsimp only
    rw [hP]
    dsimp only
    rw [hp]
    rfl

end Runfiles
